import Mathlib

/-!
# Verification of the bngo Bayesian-network library

Shallow embedding, in Lean 4, of the parts of the bngo Go source that the
frozen claims refer to:

* `graph` — the `DAG` type (`graph/dag_test.go`): `AddNode`, `AddEdge`,
  `Ancestors`, `wouldCreateCycle`, `TopologicalSort`.
* `factors` — `DiscreteFactor` (`factors/discrete.go`): `Multiply`,
  `Marginalize`, `Reduce` and their helpers; `GaussianFactor`
  (`factors/gaussian.go`): `Copy`, `Reduce`, `Multiply`.
* `estimators` — `ChiSquareTest` / `chiSquarePValue`
  (`estimators/independence_tests.go`).
* `models` — `learnGaussianCPDFromMixed` / `solveLinearRegression`
  (the models package).

Modelling conventions:

* Go `float64` is modelled as `ℚ` (exact real-valued arithmetic; IEEE
  rounding and NaN are not modelled).  Go `int` state values are `ℤ`,
  cardinalities and sizes are `ℕ`.
* Go maps are modelled as association lists.  Reading a missing key yields
  the zero value, as in Go.
* A Go slice read `s[i]` that may be out of range is modelled with
  `Option`; a `none` result of an operation models a Go runtime panic
  (index out of range), as opposed to `some (.error _)`, a returned error.
* Go's DFS `ancestorsHelper` accumulates the set of nodes reachable via
  parent links; it is modelled by the equivalent iterated-closure
  computation `closureParents` (same resulting set, deduplicated).
* `sort.Strings` is byte-wise lexicographic sorting; it is modelled by
  insertion sort under codepoint-lexicographic order (`strLe`), which
  coincides with UTF-8 byte order.
-/

deriving instance DecidableEq for Except

/-! ## String ordering (Go `sort.Strings`) -/

def charsLe : List Char → List Char → Bool
  | [], _ => true
  | _ :: _, [] => false
  | a :: as, b :: bs =>
    if a.toNat < b.toNat then true
    else if b.toNat < a.toNat then false
    else charsLe as bs

def strLe (a b : String) : Bool := charsLe a.data b.data

def strLeRel (a b : String) : Prop := strLe a b = true

instance : DecidableRel strLeRel := fun a b => by unfold strLeRel; infer_instance

def sortStrings (l : List String) : List String := List.insertionSort strLeRel l

theorem charsLe_total (a b : List Char) : charsLe a b = true ∨ charsLe b a = true := by
  induction a generalizing b with
  | nil => left; rfl
  | cons x xs ih =>
    cases b with
    | nil => right; rfl
    | cons y ys =>
      rcases lt_trichotomy x.toNat y.toNat with h | h | h
      · left; simp [charsLe, h]
      · have hyx : ¬ y.toNat < x.toNat := by omega
        have hxy : ¬ x.toNat < y.toNat := by omega
        rcases ih ys with h1 | h1
        · left; simp [charsLe, hxy, hyx, h1]
        · right; simp [charsLe, hxy, hyx, h1]
      · right; simp [charsLe, h]

theorem charsLe_trans {a b c : List Char} (hab : charsLe a b = true)
    (hbc : charsLe b c = true) : charsLe a c = true := by
  induction a generalizing b c with
  | nil => rfl
  | cons x xs ih =>
    cases b with
    | nil => simp [charsLe] at hab
    | cons y ys =>
      cases c with
      | nil => simp [charsLe] at hbc
      | cons z zs =>
        by_cases hxy : x.toNat < y.toNat
        · by_cases hyz : y.toNat < z.toNat
          · have : x.toNat < z.toNat := lt_trans hxy hyz
            simp [charsLe, this]
          · by_cases hzy : z.toNat < y.toNat
            · simp [charsLe, hyz, hzy] at hbc
            · have : x.toNat < z.toNat := by omega
              simp [charsLe, this]
        · by_cases hyx : y.toNat < x.toNat
          · simp [charsLe, hxy, hyx] at hab
          · by_cases hyz : y.toNat < z.toNat
            · have : x.toNat < z.toNat := by omega
              simp [charsLe, this]
            · by_cases hzy : z.toNat < y.toNat
              · simp [charsLe, hyz, hzy] at hbc
              · have hxz : ¬ x.toNat < z.toNat := by omega
                have hzx : ¬ z.toNat < x.toNat := by omega
                simp only [charsLe, if_neg hxz, if_neg hzx]
                exact ih (by simpa [charsLe, hxy, hyx] using hab)
                  (by simpa [charsLe, hyz, hzy] using hbc)

instance : IsTotal String strLeRel :=
  ⟨fun a b => charsLe_total a.data b.data⟩

instance : IsTrans String strLeRel :=
  ⟨fun _ _ _ hab hbc => charsLe_trans hab hbc⟩

theorem sortStrings_perm (l : List String) : (sortStrings l).Perm l :=
  List.perm_insertionSort strLeRel l

theorem mem_sortStrings {x : String} {l : List String} :
    x ∈ sortStrings l ↔ x ∈ l :=
  (sortStrings_perm l).mem_iff

/-! ## The `graph` package: DAG -/

namespace graph

/-- `DAG` from `graph`: node set, child-edge map (`parent -> children`) and
parent map (`child -> parents`), the two adjacency maps flattened to lists
of pairs with set semantics. -/
structure DAG where
  nodes : List String
  edges : List (String × String)
  parents : List (String × String)
deriving DecidableEq, Repr

/-- `NewDAG` creates a new empty DAG. -/
def NewDAG : DAG := ⟨[], [], []⟩

/-- Set-semantics insertion into an adjacency pair list (a Go map insert is
idempotent on an existing key pair). -/
def addPair (l : List (String × String)) (x : String × String) :
    List (String × String) :=
  if x ∈ l then l else l ++ [x]

/-- `DAG.AddNode` adds a node if absent (the Go code also allocates the
empty adjacency maps, a no-op in the pair-list model). -/
def DAG.AddNode (d : DAG) (node : String) : DAG :=
  if node ∈ d.nodes then d else { d with nodes := d.nodes ++ [node] }

/-- All parents of `node` recorded in a parent pair list. -/
def parentsOf (pars : List (String × String)) (node : String) : List String :=
  (pars.filter (fun e => e.1 == node)).map (·.2)

/-- All children of `node` recorded in a child-edge pair list. -/
def childrenOf (edges : List (String × String)) (node : String) : List String :=
  (edges.filter (fun e => e.1 == node)).map (·.2)

/-- One round of closing a node set under parent links. -/
def stepParents (pars : List (String × String)) (s : List String) : List String :=
  (s ++ s.flatMap (parentsOf pars)).dedup

/-- Iterated closure under parent links: computes the same visited set as
the Go DFS `ancestorsHelper` (all nodes reachable from the start set via
parent links; `pars.length` rounds reach every such node). -/
def closureParents (pars : List (String × String)) : Nat → List String → List String
  | 0, s => s
  | n + 1, s => closureParents pars n (stepParents pars s)

/-- `DAG.Ancestors`: the DFS visited set minus the node itself, sorted. -/
def DAG.Ancestors (d : DAG) (node : String) : List String :=
  sortStrings ((closureParents d.parents (d.parents.length + 1) [node]).filter
    (fun x => x ≠ node))

/-- `wouldCreateCycle`: the edge `parent → child` closes a cycle iff
`child` is an ancestor of `parent`. -/
def DAG.wouldCreateCycle (d : DAG) (parent child : String) : Bool :=
  (d.Ancestors parent).contains child

/-- `DAG.AddEdge`: add both endpoints, then check for a cycle; the Boolean
is `false` when the Go code returns the cycle error (note the receiver has
already been mutated by the two `AddNode` calls at that point). -/
def DAG.AddEdge (d : DAG) (parent child : String) : DAG × Bool :=
  let d1 := (d.AddNode parent).AddNode child
  if d1.wouldCreateCycle parent child then (d1, false)
  else ({ d1 with edges := addPair d1.edges (parent, child),
                  parents := addPair d1.parents (child, parent) }, true)

/-- Lookup in a Go `map[string]int`; missing keys read as 0. -/
def lookupInt (m : List (String × Int)) (k : String) : Int :=
  match m.find? (fun e => e.1 == k) with
  | some e => e.2
  | none => 0

/-- Store into a Go `map[string]int`. -/
def setInt (m : List (String × Int)) (k : String) (v : Int) : List (String × Int) :=
  match m with
  | [] => [(k, v)]
  | e :: rest => if e.1 == k then (k, v) :: rest else e :: setInt rest k v

/-- The body of `TopologicalSort`'s inner loop over the children of the
dequeued node: decrement the child's in-degree and enqueue it on zero. -/
def topoChildStep (st : List (String × Int) × List String) (child : String) :
    List (String × Int) × List String :=
  let nv := lookupInt st.1 child - 1
  let inDeg := setInt st.1 child nv
  if nv = 0 then (inDeg, st.2 ++ [child]) else (inDeg, st.2)

/-- Kahn's main loop: sort the queue, dequeue the head, append it to the
result, process its children.  `fuel` bounds the iteration count (the Go
loop runs while the queue is nonempty; the fuel passed by
`TopologicalSort` is never exhausted). -/
def topoLoop (edges : List (String × String)) :
    Nat → List (String × Int) → List String → List String → List String
  | 0, _, _, result => result
  | fuel + 1, inDeg, queue, result =>
    match sortStrings queue with
    | [] => result
    | node :: rest =>
      let st := (childrenOf edges node).foldl topoChildStep (inDeg, rest)
      topoLoop edges fuel st.1 st.2 (result ++ [node])

/-- `DAG.TopologicalSort`: Kahn's algorithm with a lexicographically
sorted queue; errors when the result misses nodes. -/
def DAG.TopologicalSort (d : DAG) : Except String (List String) :=
  let inDeg := d.nodes.map (fun n => (n, ((parentsOf d.parents n).length : Int)))
  let queue := d.nodes.filter (fun n => lookupInt inDeg n == 0)
  let result := topoLoop d.edges (d.nodes.length + d.edges.length + 1) inDeg queue []
  if result.length ≠ d.nodes.length then .error "cycle detected in graph"
  else .ok result

/-- Well-formedness of a DAG state: both adjacency relations mention only
nodes of the node set (every reachable `DAG` value satisfies this). -/
def DAG.WF (d : DAG) : Prop :=
  (∀ e ∈ d.edges, e.1 ∈ d.nodes ∧ e.2 ∈ d.nodes) ∧
  (∀ e ∈ d.parents, e.1 ∈ d.nodes ∧ e.2 ∈ d.nodes)

instance (d : DAG) : Decidable d.WF := by unfold DAG.WF; infer_instance

theorem mem_closureParents {pars : List (String × String)} {fuel : Nat}
    {s : List String} {x : String} (hx : x ∈ closureParents pars fuel s) :
    x ∈ s ∨ ∃ e ∈ pars, e.2 = x := by
  induction fuel generalizing s with
  | zero => exact Or.inl hx
  | succ n ih =>
    rcases ih hx with h | h
    · rcases List.mem_append.mp (List.mem_dedup.mp h) with h' | h'
      · exact Or.inl h'
      · right
        rcases List.mem_flatMap.mp h' with ⟨y, _, hy⟩
        rcases List.mem_map.mp hy with ⟨e, he, he2⟩
        exact ⟨e, (List.mem_filter.mp he).1, he2⟩
    · exact Or.inr h

theorem closureParents_singleton_no_parents {pars : List (String × String)}
    {p : String} (hp : parentsOf pars p = []) (fuel : Nat) :
    closureParents pars fuel [p] = [p] := by
  induction fuel with
  | zero => rfl
  | succ n ih =>
    have hstep : stepParents pars [p] = [p] := by
      simp [stepParents, hp, List.dedup]
    simpa [closureParents, hstep] using ih

theorem addNode_parents (d : DAG) (x : String) : (d.AddNode x).parents = d.parents := by
  unfold DAG.AddNode; split <;> rfl

theorem addNode_of_mem {d : DAG} {x : String} (hx : x ∈ d.nodes) : d.AddNode x = d := by
  unfold DAG.AddNode; rw [if_pos hx]

end graph

/-- C1: the spec's acyclicity invariant — every sequence of successful
`AddEdge` calls (self-loops included) leaves a DAG whose `TopologicalSort`
succeeds — is violated by the code: `wouldCreateCycle` asks whether the
child is an ancestor of the parent, and `Ancestors` always excludes the
node itself, so `AddEdge("A","A")` succeeds; `TopologicalSort` then
returns the cycle error.  This theorem evaluates the code at that failing
input. -/
theorem dag_selfLoop_addEdge_succeeds_topoSort_fails :
    (graph.NewDAG.AddEdge "A" "A").2 = true ∧
    ((graph.NewDAG.AddEdge "A" "A").1).TopologicalSort =
      .error "cycle detected in graph" := by
  decide

/-- C7: if `AddEdge(p, c)` returns the cycle error then the DAG — node
set, child-edge relation and parent relation — is exactly what it was
before the call (the two initial `AddNode` calls were no-ops, because a
cycle can only be detected when both endpoints already existed). -/
theorem addEdge_cycle_error_no_mutation (d : graph.DAG) (p c : String)
    (hwf : d.WF) (hfail : (d.AddEdge p c).2 = false) :
    (d.AddEdge p c).1 = d := by
  classical
  have key : d.AddEdge p c =
      if ((d.AddNode p).AddNode c).wouldCreateCycle p c = true
      then (((d.AddNode p).AddNode c), false)
      else ({ (d.AddNode p).AddNode c with
                edges := graph.addPair ((d.AddNode p).AddNode c).edges (p, c),
                parents := graph.addPair ((d.AddNode p).AddNode c).parents (c, p) },
            true) := rfl
  by_cases hcyc : ((d.AddNode p).AddNode c).wouldCreateCycle p c = true
  swap
  · rw [key, if_neg hcyc] at hfail
    simp at hfail
  rw [key, if_pos hcyc]
  have hpars : ((d.AddNode p).AddNode c).parents = d.parents := by
    rw [graph.addNode_parents, graph.addNode_parents]
  -- c is a real ancestor of p, hence both endpoints are existing nodes
  have hc : c ∈ ((d.AddNode p).AddNode c).Ancestors p := by
    rw [graph.DAG.wouldCreateCycle] at hcyc
    simpa using hcyc
  rw [graph.DAG.Ancestors, hpars] at hc
  have hc' := mem_sortStrings.mp hc
  have hcne : c ≠ p := by
    have := (List.mem_filter.mp hc').2
    simpa using this
  have hcmem := (List.mem_filter.mp hc').1
  have hcnode : c ∈ d.nodes := by
    rcases graph.mem_closureParents hcmem with h | ⟨e, he, he2⟩
    · simp at h; exact absurd h hcne
    · exact he2 ▸ (hwf.2 e he).2
  have hpnode : p ∈ d.nodes := by
    by_contra hp
    have hemp : graph.parentsOf d.parents p = [] := by
      rw [graph.parentsOf, List.filter_eq_nil_iff.mpr, List.map_nil]
      intro e he hep
      have hep' : e.1 = p := by simpa using hep
      exact hp (hep' ▸ (hwf.2 e he).1)
    have hanc : ((d.AddNode p).AddNode c).Ancestors p = [] := by
      rw [graph.DAG.Ancestors, hpars,
        graph.closureParents_singleton_no_parents hemp]
      simp [sortStrings, List.insertionSort]
    rw [graph.DAG.wouldCreateCycle, hanc] at hcyc
    simp at hcyc
  simp only [graph.addNode_of_mem hpnode, graph.addNode_of_mem hcnode]

/-- Witness for C7 at a concrete input: in the DAG with single edge
`A → B`, the call `AddEdge("B","A")` fails and mutates nothing. -/
theorem addEdge_cycle_error_no_mutation_witness :
    ((graph.NewDAG.AddEdge "A" "B").1).WF ∧
    (((graph.NewDAG.AddEdge "A" "B").1).AddEdge "B" "A").2 = false ∧
    (((graph.NewDAG.AddEdge "A" "B").1).AddEdge "B" "A").1 =
      (graph.NewDAG.AddEdge "A" "B").1 :=
  ⟨by decide, by decide,
    addEdge_cycle_error_no_mutation _ "B" "A" (by decide) (by decide)⟩

/-! ## The `factors` package: Gaussian factors -/

namespace factors

/-- Read a Go `map[string]float64` entry together with its presence bit. -/
def lookupQ? (m : List (String × ℚ)) (k : String) : Option ℚ :=
  (m.find? (fun e => e.1 == k)).map (·.2)

/-- Go map read: a missing key yields the zero value. -/
def lookupQ (m : List (String × ℚ)) (k : String) : ℚ :=
  (lookupQ? m k).getD 0

/-- The `_, ok := m[k]` presence test. -/
def hasKey {α : Type} (m : List (String × α)) (k : String) : Bool :=
  (m.find? (fun e => e.1 == k)).isSome

/-- Read a row of a Go `map[string]map[string]float64` (a missing row reads
as the nil map, whose reads are all zero). -/
def lookupRow (m : List (String × List (String × ℚ))) (k : String) :
    List (String × ℚ) :=
  ((m.find? (fun e => e.1 == k)).map (·.2)).getD []

/-- `cov[v1][v2]` with Go zero-value semantics. -/
def lookupCov (cov : List (String × List (String × ℚ))) (v1 v2 : String) : ℚ :=
  lookupQ (lookupRow cov v1) v2

/-- `_, ok := cov[v1]`. -/
def covHasRow (cov : List (String × List (String × ℚ))) (v1 : String) : Bool :=
  hasKey cov v1

/-- `_, ok := cov[v1][v2]`. -/
def covHasEntry (cov : List (String × List (String × ℚ))) (v1 v2 : String) : Bool :=
  hasKey (lookupRow cov v1) v2

/-- `GaussianFactor` from `factors/gaussian.go`: variable list, mean map
and covariance map. -/
structure GaussianFactor where
  Variables : List String
  Mean : List (String × ℚ)
  Covariance : List (String × List (String × ℚ))
deriving DecidableEq, Repr

/-- `NewGaussianFactor`: validation per the Go constructor.  The Go loops
interleave the presence and symmetry checks, which only affects which
error message is produced first, not whether an error is produced; here
the checks are staged in the same relative order. -/
def NewGaussianFactor (vars : List String) (mean : List (String × ℚ))
    (covariance : List (String × List (String × ℚ))) :
    Except String GaussianFactor :=
  if vars.isEmpty then .error "variables cannot be empty"
  else if !(vars.all (fun v => hasKey mean v)) then
    .error "mean missing for variable"
  else if !(vars.all (fun v1 => covHasRow covariance v1)) then
    .error "covariance missing for variable"
  else if !(vars.all (fun v1 => vars.all (fun v2 =>
      covHasEntry covariance v1 v2))) then
    .error "covariance missing for variables"
  else if !(vars.all (fun v1 => vars.all (fun v2 =>
      decide (|lookupCov covariance v1 v2 - lookupCov covariance v2 v1| ≤ 1e-9)))) then
    .error "covariance matrix not symmetric"
  else .ok ⟨vars, mean, covariance⟩

/-- `GaussianFactor.Copy`: the Go method copies every field; on immutable
values the deep copy rebuilds an identical structure. -/
def GaussianFactor.Copy (gf : GaussianFactor) : GaussianFactor :=
  ⟨gf.Variables, gf.Mean, gf.Covariance⟩

/-- Matrix entry of a `[][]float64` (indices produced by the loops are
always in range in the Go code). -/
def matGet (m : List (List ℚ)) (i j : Nat) : ℚ :=
  (((m.get? i).getD []).get? j).getD 0

/-- A whole row of a `[][]float64`. -/
def rowGet (m : List (List ℚ)) (i : Nat) : List ℚ :=
  (m.get? i).getD []

/-- The Go parallel assignment `m[i], m[j] = m[j], m[i]`. -/
def swapRows (m : List (List ℚ)) (i j : Nat) : List (List ℚ) :=
  let ri := rowGet m i
  let rj := rowGet m j
  (m.set i rj).set j ri

/-- Partial-pivot search over rows `i+1 .. n-1`, starting from `maxRow = i`. -/
def findPivot (mat : List (List ℚ)) (i n : Nat) : Nat :=
  (List.range' (i + 1) (n - (i + 1))).foldl
    (fun maxRow k => if |matGet mat k i| > |matGet mat maxRow i| then k else maxRow) i

/-- Eliminate column `i` from every row `k ≠ i` of the matrix/inverse pair
(Gauss-Jordan step of `invertSubMatrix`). -/
def elimOthers (i n : Nat) (st : List (List ℚ) × List (List ℚ)) :
    List (List ℚ) × List (List ℚ) :=
  (List.range n).foldl (fun st2 k =>
    if k ≠ i then
      let factor := matGet st2.1 k i
      let newRow := (List.range n).map
        (fun j => matGet st2.1 k j - factor * matGet st2.1 i j)
      let newInvRow := (List.range n).map
        (fun j => matGet st2.2 k j - factor * matGet st2.2 i j)
      (st2.1.set k newRow, st2.2.set k newInvRow)
    else st2) st

/-- One outer iteration of `invertSubMatrix`: pivot, swap, singularity
check (threshold `1e-10`), scale the pivot row, eliminate the column. -/
def elimStep (n : Nat) (acc : Except String (List (List ℚ) × List (List ℚ)))
    (i : Nat) : Except String (List (List ℚ) × List (List ℚ)) :=
  match acc with
  | .error e => .error e
  | .ok st =>
    let maxRow := findPivot st.1 i n
    let matrix := swapRows st.1 i maxRow
    let inv := swapRows st.2 i maxRow
    if |matGet matrix i i| < 1e-10 then .error "matrix is singular or nearly singular"
    else
      let pivot := matGet matrix i i
      let matrix2 := matrix.set i ((rowGet matrix i).map (· / pivot))
      let inv2 := inv.set i ((rowGet inv i).map (· / pivot))
      .ok (elimOthers i n (matrix2, inv2))

/-- `invertSubMatrix`: Gauss-Jordan inversion, with partial pivoting, of
the covariance submatrix over `vars`. -/
def GaussianFactor.invertSubMatrix (gf : GaussianFactor) (vars : List String) :
    Except String (List (List ℚ)) :=
  let n := vars.length
  let matrix := vars.map (fun v1 => vars.map (fun v2 => lookupCov gf.Covariance v1 v2))
  let inv := (List.range n).map (fun i => (List.range n).map
    (fun j => if j = i then (1 : ℚ) else 0))
  match (List.range n).foldl (elimStep n) (.ok (matrix, inv)) with
  | .error e => .error e
  | .ok st => .ok st.2

/-- `GaussianFactor.Reduce`: condition on observed values.  No evidence →
a copy; everything observed → error; otherwise the Schur-complement
conditional via `invertSubMatrix`. -/
def GaussianFactor.Reduce (gf : GaussianFactor) (evidence : List (String × ℚ)) :
    Except String GaussianFactor :=
  let observed := gf.Variables.filter (fun v => hasKey evidence v)
  let unobserved := gf.Variables.filter (fun v => !(hasKey evidence v))
  if observed.isEmpty then .ok gf.Copy
  else if unobserved.isEmpty then
    .error "all variables observed, cannot reduce to Gaussian"
  else
    match gf.invertSubMatrix observed with
    | .error e => .error ("failed to invert covariance matrix: " ++ e)
    | .ok sigma22Inv =>
      let adjustment := fun v1 =>
        (observed.enum.map (fun iv =>
          (observed.enum.map (fun jv =>
            lookupCov gf.Covariance v1 iv.2 * matGet sigma22Inv iv.1 jv.1 *
              (lookupQ evidence jv.2 - lookupQ gf.Mean jv.2))).sum)).sum
      let newMean := unobserved.map (fun v => (v, lookupQ gf.Mean v + adjustment v))
      let newCov := unobserved.map (fun v1 => (v1, unobserved.map (fun v2 =>
        (v2, lookupCov gf.Covariance v1 v2 -
          (observed.enum.map (fun iv =>
            (observed.enum.map (fun jv =>
              lookupCov gf.Covariance v1 iv.2 * matGet sigma22Inv iv.1 jv.1 *
                lookupCov gf.Covariance jv.2 v2)).sum)).sum))))
      NewGaussianFactor unobserved newMean newCov

/-- `GaussianFactor.Multiply`: disjoint variable sets concatenate into the
block-diagonal joint; overlapping sets are rejected. -/
def GaussianFactor.Multiply (gf other : GaussianFactor) :
    Except String GaussianFactor :=
  let newVars := sortStrings ((gf.Variables ++ other.Variables).dedup)
  let disjoint := !(gf.Variables.any (fun v => other.Variables.contains v))
  if disjoint then
    let newMean := newVars.map (fun v =>
      (v, if hasKey gf.Mean v then lookupQ gf.Mean v else lookupQ other.Mean v))
    let newCov := newVars.map (fun v => (v, newVars.map (fun v2 =>
      (v2, if hasKey gf.Mean v then
             (if hasKey gf.Mean v2 then lookupCov gf.Covariance v v2 else 0)
           else
             (if hasKey other.Mean v2 then lookupCov other.Covariance v v2 else 0)))))
    NewGaussianFactor newVars newMean newCov
  else .error "multiplication of dependent Gaussian factors not yet fully implemented"

/-- Well-formedness of a Gaussian factor, as `NewGaussianFactor`
establishes it (plus distinct variables and no spare mean keys, which all
construction sites maintain): nonempty distinct variables, the mean map
defined exactly on the variables, a complete covariance block over the
variables, symmetric within `1e-9`. -/
def GaussianFactor.WF (gf : GaussianFactor) : Prop :=
  gf.Variables ≠ [] ∧ gf.Variables.Nodup ∧
  (∀ v ∈ gf.Variables, hasKey gf.Mean v = true) ∧
  (∀ e ∈ gf.Mean, e.1 ∈ gf.Variables) ∧
  (∀ v1 ∈ gf.Variables, ∀ v2 ∈ gf.Variables, covHasEntry gf.Covariance v1 v2 = true) ∧
  (∀ v1 ∈ gf.Variables, ∀ v2 ∈ gf.Variables,
    |lookupCov gf.Covariance v1 v2 - lookupCov gf.Covariance v2 v1| ≤ 1e-9)

instance (gf : GaussianFactor) : Decidable gf.WF := by
  unfold GaussianFactor.WF; infer_instance

theorem hasKey_exists_mem {α : Type} {m : List (String × α)} {v : String}
    (h : hasKey m v = true) : ∃ e ∈ m, e.1 = v := by
  rcases Option.isSome_iff_exists.mp h with ⟨e, he⟩
  exact ⟨e, List.mem_of_find?_eq_some he, by simpa using List.find?_some he⟩

theorem hasKey_eq_false {α : Type} {m : List (String × α)} {v : String}
    (h : ∀ e ∈ m, e.1 ≠ v) : hasKey m v = false := by
  by_contra hc
  rcases hasKey_exists_mem (by simpa using hc) with ⟨e, he, he1⟩
  exact h e he he1

theorem hasKey_map_self {α : Type} {l : List String} {f : String → α} {x : String} :
    hasKey (l.map (fun v => (v, f v))) x = true ↔ x ∈ l := by
  induction l with
  | nil => simp [hasKey]
  | cons a as ih =>
    by_cases hax : a = x
    · subst hax; simp [hasKey, List.find?]
    · have : (a == x) = false := by simp [hax]
      simp only [List.map_cons, hasKey, List.find?, this]
      rw [← hasKey]
      simp [ih, hax, Ne.symm hax]

theorem lookupQ_map_self {l : List String} {f : String → ℚ} {x : String}
    (hx : x ∈ l) : lookupQ (l.map (fun v => (v, f v))) x = f x := by
  induction l with
  | nil => simp at hx
  | cons a as ih =>
    by_cases hax : a = x
    · subst hax; simp [lookupQ, lookupQ?, List.find?]
    · have hbeq : (a == x) = false := by simp [hax]
      have hx' : x ∈ as := by
        rcases List.mem_cons.mp hx with h | h
        · exact absurd h.symm hax
        · exact h
      simp only [List.map_cons, lookupQ, lookupQ?, List.find?, hbeq]
      exact ih hx'

theorem lookupRow_map_self {l : List String}
    {f : String → List (String × ℚ)} {x : String} (hx : x ∈ l) :
    lookupRow (l.map (fun v => (v, f v))) x = f x := by
  induction l with
  | nil => simp at hx
  | cons a as ih =>
    by_cases hax : a = x
    · subst hax; simp [lookupRow, List.find?]
    · have hbeq : (a == x) = false := by simp [hax]
      have hx' : x ∈ as := by
        rcases List.mem_cons.mp hx with h | h
        · exact absurd h.symm hax
        · exact h
      simp only [List.map_cons, lookupRow, List.find?, hbeq]
      exact ih hx'

end factors

/-- C10: `GaussianFactor.Reduce` at the two edge cases of its public
interface — evidence touching none of the factor's variables yields a
successful deep copy equal to the input, and evidence covering every
variable yields an error rather than a point mass. -/
theorem gaussianReduce_no_evidence_copy_full_evidence_error
    (gf : factors.GaussianFactor) (evidence : List (String × ℚ))
    (hne : gf.Variables ≠ []) :
    ((∀ v ∈ gf.Variables, factors.hasKey evidence v = false) →
      gf.Reduce evidence = .ok gf.Copy ∧ gf.Copy = gf) ∧
    ((∀ v ∈ gf.Variables, factors.hasKey evidence v = true) →
      gf.Reduce evidence =
        .error "all variables observed, cannot reduce to Gaussian") := by
  constructor
  · intro h
    have hobs : gf.Variables.filter (fun v => factors.hasKey evidence v) = [] := by
      rw [List.filter_eq_nil_iff]
      intro v hv
      simp [h v hv]
    refine ⟨?_, rfl⟩
    simp [factors.GaussianFactor.Reduce, hobs]
  · intro h
    have hobs : gf.Variables.filter (fun v => factors.hasKey evidence v) =
        gf.Variables := by
      rw [List.filter_eq_self]
      intro v hv
      simp [h v hv]
    have hunobs : gf.Variables.filter (fun v => !(factors.hasKey evidence v)) = [] := by
      rw [List.filter_eq_nil_iff]
      intro v hv
      simp [h v hv]
    have hoe : gf.Variables.isEmpty = false := by
      cases hl : gf.Variables with
      | nil => exact absurd hl hne
      | cons a as => simp
    simp [factors.GaussianFactor.Reduce, hobs, hunobs, hoe]

theorem sortStrings_sorted (l : List String) :
    List.Sorted strLeRel (sortStrings l) :=
  List.sorted_insertionSort strLeRel l

theorem sortStrings_nodup {l : List String} (h : l.Nodup) :
    (sortStrings l).Nodup :=
  (sortStrings_perm l).nodup_iff.mpr h

theorem newGaussianFactor_ok {vars : List String} {mean : List (String × ℚ)}
    {cov : List (String × List (String × ℚ))}
    (h0 : vars.isEmpty = false)
    (h1 : ∀ v ∈ vars, factors.hasKey mean v = true)
    (h2 : ∀ v1 ∈ vars, factors.covHasRow cov v1 = true)
    (h3 : ∀ v1 ∈ vars, ∀ v2 ∈ vars, factors.covHasEntry cov v1 v2 = true)
    (h4 : ∀ v1 ∈ vars, ∀ v2 ∈ vars,
      |factors.lookupCov cov v1 v2 - factors.lookupCov cov v2 v1| ≤ 1e-9) :
    factors.NewGaussianFactor vars mean cov = .ok ⟨vars, mean, cov⟩ := by
  have b1 : vars.all (fun v => factors.hasKey mean v) = true := by
    rw [List.all_eq_true]; exact h1
  have b2 : vars.all (fun v1 => factors.covHasRow cov v1) = true := by
    rw [List.all_eq_true]; exact h2
  have b3 : vars.all (fun v1 => vars.all (fun v2 =>
      factors.covHasEntry cov v1 v2)) = true := by
    rw [List.all_eq_true]
    intro v1 hv1
    rw [List.all_eq_true]
    exact h3 v1 hv1
  have b4 : vars.all (fun v1 => vars.all (fun v2 =>
      decide (|factors.lookupCov cov v1 v2 - factors.lookupCov cov v2 v1| ≤ 1e-9))) =
      true := by
    rw [List.all_eq_true]
    intro v1 hv1
    rw [List.all_eq_true]
    intro v2 hv2
    exact decide_eq_true (h4 v1 hv1 v2 hv2)
  simp [factors.NewGaussianFactor, h0, b1, b2, b3, b4]

/-- C6: Gaussian multiplication.  For well-formed factors with disjoint
variable sets, `Multiply` succeeds and returns the block-diagonal joint:
the result's variable tuple is the sorted union, means and within-block
covariances come from the respective operand, and every cross-covariance
is zero.  For factors sharing a variable, `Multiply` returns the
not-implemented error. -/
theorem gaussianMultiply_disjoint_blockDiagonal_overlap_error
    (A B : factors.GaussianFactor) (hA : A.WF) (hB : B.WF) :
    ((∀ v ∈ A.Variables, v ∉ B.Variables) →
      ∃ C, A.Multiply B = .ok C ∧
        (C.Variables.Nodup ∧ List.Sorted strLeRel C.Variables ∧
          (∀ v, v ∈ C.Variables ↔ v ∈ A.Variables ∨ v ∈ B.Variables)) ∧
        (∀ v ∈ A.Variables, factors.lookupQ C.Mean v = factors.lookupQ A.Mean v) ∧
        (∀ v ∈ B.Variables, factors.lookupQ C.Mean v = factors.lookupQ B.Mean v) ∧
        (∀ v1 ∈ A.Variables, ∀ v2 ∈ A.Variables,
          factors.lookupCov C.Covariance v1 v2 = factors.lookupCov A.Covariance v1 v2) ∧
        (∀ v1 ∈ B.Variables, ∀ v2 ∈ B.Variables,
          factors.lookupCov C.Covariance v1 v2 = factors.lookupCov B.Covariance v1 v2) ∧
        (∀ v1 ∈ A.Variables, ∀ v2 ∈ B.Variables,
          factors.lookupCov C.Covariance v1 v2 = 0 ∧
          factors.lookupCov C.Covariance v2 v1 = 0)) ∧
    ((∃ v, v ∈ A.Variables ∧ v ∈ B.Variables) →
      A.Multiply B =
        .error "multiplication of dependent Gaussian factors not yet fully implemented") := by
  classical
  obtain ⟨hAne, hAnodup, hAkey, hAdom, -, hAsym⟩ := hA
  obtain ⟨hBne, hBnodup, hBkey, hBdom, -, hBsym⟩ := hB
  have hAnot : ∀ v, v ∉ A.Variables → factors.hasKey A.Mean v = false := fun v hv =>
    factors.hasKey_eq_false (fun e he h1 => hv (h1 ▸ hAdom e he))
  have hBnot : ∀ v, v ∉ B.Variables → factors.hasKey B.Mean v = false := fun v hv =>
    factors.hasKey_eq_false (fun e he h1 => hv (h1 ▸ hBdom e he))
  constructor
  · intro hdisj
    have hdisj' : ∀ v ∈ B.Variables, v ∉ A.Variables := fun v hv hva => hdisj v hva hv
    set U := sortStrings ((A.Variables ++ B.Variables).dedup) with hU
    have hUmem : ∀ v, v ∈ U ↔ v ∈ A.Variables ∨ v ∈ B.Variables := by
      intro v
      rw [hU, mem_sortStrings, List.mem_dedup, List.mem_append]
    have hUnodup : U.Nodup := sortStrings_nodup (List.nodup_dedup _)
    have hUsorted : List.Sorted strLeRel U := sortStrings_sorted _
    have hUne : U.isEmpty = false := by
      cases hAv : A.Variables with
      | nil => exact absurd hAv hAne
      | cons a as =>
        have : a ∈ U := (hUmem a).mpr (Or.inl (hAv ▸ List.mem_cons_self a as))
        cases hUl : U with
        | nil => rw [hUl] at this; simp at this
        | cons u us => simp
    have hany : A.Variables.any (fun v => B.Variables.contains v) = false := by
      rw [List.any_eq_false]
      intro v hv
      rw [List.elem_iff]
      exact fun hvb => hdisj v hv hvb
    -- the pointwise mean and covariance of the constructed joint
    set mf : String → ℚ := fun v =>
      if factors.hasKey A.Mean v then factors.lookupQ A.Mean v
      else factors.lookupQ B.Mean v with hmf
    set g : String → String → ℚ := fun v v2 =>
      if factors.hasKey A.Mean v then
        (if factors.hasKey A.Mean v2 then factors.lookupCov A.Covariance v v2 else 0)
      else
        (if factors.hasKey B.Mean v2 then factors.lookupCov B.Covariance v v2 else 0)
      with hg
    have hmean : ∀ v ∈ U, factors.lookupQ (U.map (fun v => (v, mf v))) v = mf v :=
      fun v hv => factors.lookupQ_map_self hv
    have hcovg : ∀ v1 ∈ U, ∀ v2 ∈ U,
        factors.lookupCov (U.map (fun v => (v, U.map (fun v2 => (v2, g v v2))))) v1 v2 =
          g v1 v2 := by
      intro v1 hv1 v2 hv2
      rw [factors.lookupCov, factors.lookupRow_map_self hv1, factors.lookupQ_map_self hv2]
    have hgAA : ∀ v1 ∈ A.Variables, ∀ v2 ∈ A.Variables,
        g v1 v2 = factors.lookupCov A.Covariance v1 v2 := by
      intro v1 hv1 v2 hv2
      rw [hg]
      simp only [hAkey v1 hv1, hAkey v2 hv2, if_true]
    have hgBB : ∀ v1 ∈ B.Variables, ∀ v2 ∈ B.Variables,
        g v1 v2 = factors.lookupCov B.Covariance v1 v2 := by
      intro v1 hv1 v2 hv2
      rw [hg]
      simp only [hAnot v1 (hdisj' v1 hv1), hBkey v2 hv2, if_true, Bool.false_eq_true,
        if_false]
    have hgAB : ∀ v1 ∈ A.Variables, ∀ v2 ∈ B.Variables,
        g v1 v2 = 0 ∧ g v2 v1 = 0 := by
      intro v1 hv1 v2 hv2
      constructor
      · rw [hg]
        simp only [hAkey v1 hv1, hAnot v2 (hdisj' v2 hv2), if_true,
          Bool.false_eq_true, if_false]
      · rw [hg]
        simp only [hAnot v2 (hdisj' v2 hv2), hBnot v1 (hdisj v1 hv1),
          Bool.false_eq_true, if_false]
    have hok : factors.NewGaussianFactor U (U.map (fun v => (v, mf v)))
        (U.map (fun v => (v, U.map (fun v2 => (v2, g v v2))))) =
        .ok ⟨U, U.map (fun v => (v, mf v)),
             U.map (fun v => (v, U.map (fun v2 => (v2, g v v2))))⟩ := by
      apply newGaussianFactor_ok hUne
      · intro v hv
        exact factors.hasKey_map_self.mpr hv
      · intro v1 hv1
        exact factors.hasKey_map_self.mpr hv1
      · intro v1 hv1 v2 hv2
        rw [factors.covHasEntry, factors.lookupRow_map_self hv1]
        exact factors.hasKey_map_self.mpr hv2
      · intro v1 hv1 v2 hv2
        rw [factors.lookupCov, factors.lookupRow_map_self hv1,
          factors.lookupQ_map_self hv2, factors.lookupCov,
          factors.lookupRow_map_self hv2, factors.lookupQ_map_self hv1]
        rcases (hUmem v1).mp hv1 with h1 | h1 <;> rcases (hUmem v2).mp hv2 with h2 | h2
        · rw [hgAA v1 h1 v2 h2, hgAA v2 h2 v1 h1]
          exact hAsym v1 h1 v2 h2
        · rw [(hgAB v1 h1 v2 h2).1, (hgAB v1 h1 v2 h2).2]
          norm_num
        · rw [(hgAB v2 h2 v1 h1).2, (hgAB v2 h2 v1 h1).1]
          norm_num
        · rw [hgBB v1 h1 v2 h2, hgBB v2 h2 v1 h1]
          exact hBsym v1 h1 v2 h2
    have hmul : A.Multiply B = .ok ⟨U, U.map (fun v => (v, mf v)),
        U.map (fun v => (v, U.map (fun v2 => (v2, g v v2))))⟩ := by
      rw [factors.GaussianFactor.Multiply]
      simp only [hany, Bool.not_false, if_true]
      exact hok
    refine ⟨_, hmul, ⟨hUnodup, hUsorted, hUmem⟩, ?_, ?_, ?_, ?_, ?_⟩
    · intro v hv
      have hvU : v ∈ U := (hUmem v).mpr (Or.inl hv)
      rw [hmean v hvU, hmf]
      simp only [hAkey v hv, if_true]
    · intro v hv
      have hvU : v ∈ U := (hUmem v).mpr (Or.inr hv)
      rw [hmean v hvU, hmf]
      simp only [hAnot v (hdisj' v hv), Bool.false_eq_true, if_false]
    · intro v1 hv1 v2 hv2
      rw [hcovg v1 ((hUmem v1).mpr (Or.inl hv1)) v2 ((hUmem v2).mpr (Or.inl hv2))]
      exact hgAA v1 hv1 v2 hv2
    · intro v1 hv1 v2 hv2
      rw [hcovg v1 ((hUmem v1).mpr (Or.inr hv1)) v2 ((hUmem v2).mpr (Or.inr hv2))]
      exact hgBB v1 hv1 v2 hv2
    · intro v1 hv1 v2 hv2
      constructor
      · rw [hcovg v1 ((hUmem v1).mpr (Or.inl hv1)) v2 ((hUmem v2).mpr (Or.inr hv2))]
        exact (hgAB v1 hv1 v2 hv2).1
      · rw [hcovg v2 ((hUmem v2).mpr (Or.inr hv2)) v1 ((hUmem v1).mpr (Or.inl hv1))]
        exact (hgAB v1 hv1 v2 hv2).2
  · intro ⟨v, hva, hvb⟩
    have hany : A.Variables.any (fun v => B.Variables.contains v) = true := by
      rw [List.any_eq_true]
      exact ⟨v, hva, by rw [List.elem_iff]; exact hvb⟩
    rw [factors.GaussianFactor.Multiply]
    simp only [hany, Bool.not_true]
    rw [if_neg]
    simp

/-- Witness for C6 at concrete disjoint and overlapping factors. -/
theorem gaussianMultiply_witness :
    (⟨["A"], [("A", 0)], [("A", [("A", 1)])]⟩ : factors.GaussianFactor).WF ∧
    (⟨["B"], [("B", 2)], [("B", [("B", 3)])]⟩ : factors.GaussianFactor).WF ∧
    (∃ C, (⟨["A"], [("A", 0)], [("A", [("A", 1)])]⟩ :
        factors.GaussianFactor).Multiply
        (⟨["B"], [("B", 2)], [("B", [("B", 3)])]⟩ : factors.GaussianFactor) =
        .ok C ∧
      factors.lookupCov C.Covariance "A" "B" = 0 ∧
      factors.lookupCov C.Covariance "B" "A" = 0) ∧
    (⟨["A"], [("A", 0)], [("A", [("A", 1)])]⟩ : factors.GaussianFactor).Multiply
        (⟨["A"], [("A", 2)], [("A", [("A", 3)])]⟩ : factors.GaussianFactor) =
      .error "multiplication of dependent Gaussian factors not yet fully implemented" := by
  have hwfA : (⟨["A"], [("A", 0)], [("A", [("A", 1)])]⟩ : factors.GaussianFactor).WF := by
    refine ⟨by decide, by decide, by decide, by decide, by decide, ?_⟩
    intro v1 hv1 v2 hv2
    simp only [List.mem_singleton] at hv1 hv2
    subst hv1; subst hv2
    norm_num [factors.lookupCov, factors.lookupRow, factors.lookupQ, factors.lookupQ?]
  have hwfB : (⟨["B"], [("B", 2)], [("B", [("B", 3)])]⟩ : factors.GaussianFactor).WF := by
    refine ⟨by decide, by decide, by decide, by decide, by decide, ?_⟩
    intro v1 hv1 v2 hv2
    simp only [List.mem_singleton] at hv1 hv2
    subst hv1; subst hv2
    norm_num [factors.lookupCov, factors.lookupRow, factors.lookupQ, factors.lookupQ?]
  have hwfA2 : (⟨["A"], [("A", 2)], [("A", [("A", 3)])]⟩ : factors.GaussianFactor).WF := by
    refine ⟨by decide, by decide, by decide, by decide, by decide, ?_⟩
    intro v1 hv1 v2 hv2
    simp only [List.mem_singleton] at hv1 hv2
    subst hv1; subst hv2
    norm_num [factors.lookupCov, factors.lookupRow, factors.lookupQ, factors.lookupQ?]
  refine ⟨hwfA, hwfB, ?_, ?_⟩
  · obtain ⟨C, hok, -, -, -, -, -, hcross⟩ :=
      (gaussianMultiply_disjoint_blockDiagonal_overlap_error _ _ hwfA hwfB).1
        (by decide)
    exact ⟨C, hok, (hcross "A" (by decide) "B" (by decide)).1,
      (hcross "A" (by decide) "B" (by decide)).2⟩
  · exact (gaussianMultiply_disjoint_blockDiagonal_overlap_error _ _ hwfA hwfA2).2
      ⟨"A", by decide, by decide⟩

/-- Witness for C10 at a concrete factor over `{X}`: empty evidence
returns the factor itself, evidence on `X` errors. -/
theorem gaussianReduce_edge_cases_witness :
    (⟨["X"], [("X", 0)], [("X", [("X", 1)])]⟩ : factors.GaussianFactor).Variables ≠ [] ∧
    ((⟨["X"], [("X", 0)], [("X", [("X", 1)])]⟩ : factors.GaussianFactor).Reduce [] =
        .ok (⟨["X"], [("X", 0)], [("X", [("X", 1)])]⟩ : factors.GaussianFactor).Copy) ∧
    ((⟨["X"], [("X", 0)], [("X", [("X", 1)])]⟩ : factors.GaussianFactor).Reduce
        [("X", 2)] = .error "all variables observed, cannot reduce to Gaussian") := by
  refine ⟨by decide, ?_, ?_⟩
  · exact ((gaussianReduce_no_evidence_copy_full_evidence_error _ [] (by decide)).1
      (by decide)).1
  · exact (gaussianReduce_no_evidence_copy_full_evidence_error _ [("X", 2)]
      (by decide)).2 (by decide)

/-! ## The `factors` package: discrete factors -/

namespace factors

/-- Assignment/evidence maps are Go `map[string]int`; missing keys read 0. -/
def asgGet (m : List (String × Int)) (k : String) : Int :=
  ((m.find? (fun e => e.1 == k)).map (·.2)).getD 0

/-- Presence test on an integer-valued map. -/
def asgHas (m : List (String × Int)) (k : String) : Bool :=
  (m.find? (fun e => e.1 == k)).isSome

/-- Store into a `map[string]int` (overwrites the existing entry). -/
def asgSet (m : List (String × Int)) (k : String) (v : Int) : List (String × Int) :=
  match m with
  | [] => [(k, v)]
  | e :: rest => if e.1 == k then (k, v) :: rest else e :: asgSet rest k v

/-- Cardinality maps are Go `map[string]int`, holding state counts; they
are modelled with `ℕ` values (a Go loop `for i := 0; i < card; i++` runs
zero times on a non-positive count). -/
def cardGet (m : List (String × Nat)) (k : String) : Nat :=
  ((m.find? (fun e => e.1 == k)).map (·.2)).getD 0

/-- Presence test on a cardinality map. -/
def cardHas (m : List (String × Nat)) (k : String) : Bool :=
  (m.find? (fun e => e.1 == k)).isSome

/-- Store into a cardinality map. -/
def cardSet (m : List (String × Nat)) (k : String) (v : Nat) : List (String × Nat) :=
  match m with
  | [] => [(k, v)]
  | e :: rest => if e.1 == k then (k, v) :: rest else e :: cardSet rest k v

/-- `size := 1; for _, v := range vars { size *= cardinality[v] }`. -/
def prodCard (vars : List String) (card : List (String × Nat)) : Nat :=
  match vars with
  | [] => 1
  | v :: rest => cardGet card v * prodCard rest card

/-- Go slice read `s[i]`: `none` models the index-out-of-range panic. -/
def sliceGet? (l : List ℚ) (i : Int) : Option ℚ :=
  if 0 ≤ i then l.get? i.toNat else none

/-- Go slice write `s[i] = v`: `none` models the panic. -/
def sliceSet? (l : List ℚ) (i : Int) (v : ℚ) : Option (List ℚ) :=
  if 0 ≤ i ∧ i.toNat < l.length then some (l.set i.toNat v) else none

/-- The stride-index computation shared by `projectAssignmentToIndex` and
`assignmentToIndex`: the Go loop walks `vars` from the last entry with a
growing stride, accumulating `Σᵢ assignment[vᵢ] · ∏_{j>i} card[vⱼ]`. -/
def projectIndex (vars : List String) (card : List (String × Nat))
    (asg : List (String × Int)) : Int :=
  match vars with
  | [] => 0
  | v :: rest => asgGet asg v * (prodCard rest card : Int) + projectIndex rest card asg

/-- `DiscreteFactor` from `factors/discrete.go`. -/
structure DiscreteFactor where
  Variables : List String
  Cardinality : List (String × Nat)
  Values : List ℚ
deriving DecidableEq, Repr

/-- The Go running sum `sum := 0.0; for _, v := range values { sum += v }`. -/
def goSum (l : List ℚ) : ℚ := l.foldl (· + ·) 0

/-- `NewDiscreteFactor`: only the length-versus-size check. -/
def NewDiscreteFactor (vars : List String) (card : List (String × Nat))
    (values : List ℚ) : Except String DiscreteFactor :=
  if values.length ≠ prodCard vars card then
    .error "values length does not match expected size"
  else .ok ⟨vars, card, values⟩

/-- `multiplyHelper`: depth recursion over the remaining suffix of the
result's variable tuple; at the leaf the product of the two projected
entries is stored at the assignment's stride index.  The Go code mutates
one shared assignment map; passing the updated map down is equivalent
because each level only overwrites its own variable's entry. -/
def multiplyHelper (f other : DiscreteFactor) (vars : List String)
    (cardinality : List (String × Nat)) :
    List String → List (String × Int) → List ℚ → Option (List ℚ)
  | [], asg, result => do
      let idx := projectIndex vars cardinality asg
      let v1 ← sliceGet? f.Values (projectIndex f.Variables f.Cardinality asg)
      let v2 ← sliceGet? other.Values (projectIndex other.Variables other.Cardinality asg)
      sliceSet? result idx (v1 * v2)
  | v :: rest, asg, result =>
      (List.range (cardGet cardinality v)).foldlM
        (fun res (i : Nat) => multiplyHelper f other vars cardinality rest
          (asgSet asg v (i : Int)) res) result

/-- The cardinality merge inside `Multiply`: start from `f`'s map and
write every entry of `other`'s over it. -/
def mergeCard (a b : List (String × Nat)) : List (String × Nat) :=
  b.foldl (fun acc e => cardSet acc e.1 e.2) a

/-- `DiscreteFactor.Multiply`.  The union of the variable sets is sorted;
the merge fails on a shared cardinality key with different values; the
fresh values array is filled by `multiplyHelper`. -/
def DiscreteFactor.Multiply (f other : DiscreteFactor) :
    Option (Except String DiscreteFactor) :=
  let newVars := sortStrings ((f.Variables ++ other.Variables).dedup)
  if other.Cardinality.any (fun e =>
      cardHas f.Cardinality e.1 && !(cardGet f.Cardinality e.1 == e.2)) then
    some (.error "cardinality mismatch for variable")
  else
    let newCard := mergeCard f.Cardinality other.Cardinality
    let newValues := List.replicate (prodCard newVars newCard) 0
    match multiplyHelper f other newVars newCard newVars [] newValues with
    | none => none
    | some values => some (NewDiscreteFactor newVars newCard values)

/-- `marginalizeHelper`: enumerate every assignment of `f`'s variables and
accumulate `f`'s entry into the projected position of the result. -/
def marginalizeHelper (f : DiscreteFactor) (newVars : List String)
    (newCard : List (String × Nat)) :
    List String → List (String × Int) → List ℚ → Option (List ℚ)
  | [], asg, result => do
      let oldIdx := projectIndex f.Variables f.Cardinality asg
      let newIdx := projectIndex newVars newCard asg
      let oldV ← sliceGet? f.Values oldIdx
      let cur ← sliceGet? result newIdx
      sliceSet? result newIdx (cur + oldV)
  | v :: rest, asg, result =>
      (List.range (cardGet f.Cardinality v)).foldlM
        (fun res (i : Nat) => marginalizeHelper f newVars newCard rest
          (asgSet asg v (i : Int)) res) result

/-- `DiscreteFactor.Marginalize`: sum out `vars`; removing everything
yields the scalar factor holding the running sum of all values. -/
def DiscreteFactor.Marginalize (f : DiscreteFactor) (vars : List String) :
    Option (Except String DiscreteFactor) :=
  let newVars := f.Variables.filter (fun v => !(vars.contains v))
  if newVars.isEmpty then
    some (NewDiscreteFactor [] [] [goSum f.Values])
  else
    let newCard := newVars.map (fun v => (v, cardGet f.Cardinality v))
    let newValues := List.replicate (prodCard newVars newCard) 0
    match marginalizeHelper f newVars newCard f.Variables [] newValues with
    | none => none
    | some values => some (NewDiscreteFactor newVars newCard values)

/-- `reduceHelper`: enumerate the free variables around the fixed evidence
and copy the matching entries.  (The loop bound is `newCard[v]`.) -/
def reduceHelper (f : DiscreteFactor) (vars : List String)
    (newCard : List (String × Nat)) :
    List String → List (String × Int) → List ℚ → Option (List ℚ)
  | [], asg, result => do
      let oldIdx := projectIndex f.Variables f.Cardinality asg
      let newIdx := projectIndex vars newCard asg
      let v ← sliceGet? f.Values oldIdx
      sliceSet? result newIdx v
  | v :: rest, asg, result =>
      (List.range (cardGet newCard v)).foldlM
        (fun res (i : Nat) => reduceHelper f vars newCard rest
          (asgSet asg v (i : Int)) res) result

/-- `DiscreteFactor.Reduce`.  The Go function's opening loop computes a
membership flag per evidence variable and discards it (dead code: its
`continue` acts on the loop over the evidence either way), so it is not
modelled; no range validation of the evidence values exists.  With all
variables fixed, the single surviving entry is read directly — an
out-of-range evidence value makes that read (or a read inside
`reduceHelper`) panic. -/
def DiscreteFactor.Reduce (f : DiscreteFactor) (evidence : List (String × Int)) :
    Option (Except String DiscreteFactor) :=
  let newVars := f.Variables.filter (fun v => !(asgHas evidence v))
  if newVars.isEmpty then
    match sliceGet? f.Values (projectIndex f.Variables f.Cardinality evidence) with
    | none => none
    | some x => some (NewDiscreteFactor [] [] [x])
  else
    let newCard := newVars.map (fun v => (v, cardGet f.Cardinality v))
    let newValues := List.replicate (prodCard newVars newCard) 0
    match reduceHelper f newVars newCard newVars evidence newValues with
    | none => none
    | some values => some (NewDiscreteFactor newVars newCard values)

/-- Well-formedness of a discrete factor: distinct variables, a
cardinality map keyed exactly (and once) by the variables, and a values
array of the declared size. -/
def DiscreteFactor.WF (f : DiscreteFactor) : Prop :=
  f.Variables.Nodup ∧
  (f.Cardinality.map (·.1)).Nodup ∧
  (∀ e ∈ f.Cardinality, e.1 ∈ f.Variables) ∧
  (∀ v ∈ f.Variables, cardHas f.Cardinality v = true) ∧
  f.Values.length = prodCard f.Variables f.Cardinality

instance (f : DiscreteFactor) : Decidable f.WF := by
  unfold DiscreteFactor.WF; infer_instance

end factors

/-- C2: the claim says an out-of-range evidence value makes
`DiscreteFactor.Reduce` return an error.  The code never validates
evidence (its opening check loop is dead code) and instead panics with an
index out of range; evaluated here on the factor `φ(A)`, `card A = 2`,
with evidence `A = 5`: the result is a panic (`none`), not a returned
error. -/
theorem discreteReduce_out_of_range_panics :
    (⟨["A"], [("A", 2)], [1, 2]⟩ : factors.DiscreteFactor).Reduce [("A", 5)] =
      none ∧
    (⟨["A"], [("A", 2)], [1, 2]⟩ : factors.DiscreteFactor).WF := by
  constructor
  · rfl
  · decide

namespace factors

theorem asgGet_set_self (m : List (String × Int)) (k : String) (v : Int) :
    asgGet (asgSet m k v) k = v := by
  induction m with
  | nil => simp [asgSet, asgGet, List.find?]
  | cons e rest ih =>
    by_cases hek : e.1 = k
    · simp [asgSet, hek, asgGet, List.find?]
    · have hbeq : (e.1 == k) = false := by simp [hek]
      simp only [asgSet, hbeq, Bool.false_eq_true, if_false]
      simp only [asgGet, List.find?, hbeq]
      exact ih

theorem asgGet_set_other {m : List (String × Int)} {k k' : String} {v : Int}
    (h : k' ≠ k) : asgGet (asgSet m k v) k' = asgGet m k' := by
  have hkk : (k == k') = false := by
    simp only [beq_eq_false_iff_ne]
    exact fun he => h he.symm
  induction m with
  | nil => simp [asgSet, asgGet, List.find?, hkk]
  | cons e rest ih =>
    by_cases hek : e.1 = k
    · have hbeq2 : (e.1 == k') = false := by
        rw [hek]; exact hkk
      simp [asgSet, hek, asgGet, List.find?, hkk, hbeq2]
    · have hbeq : (e.1 == k) = false := by simp [hek]
      simp only [asgSet, hbeq, Bool.false_eq_true, if_false]
      by_cases hek' : e.1 = k'
      · simp [asgGet, List.find?, hek']
      · have hbeq' : (e.1 == k') = false := by simp [hek']
        simp only [asgGet, List.find?, hbeq']
        exact ih

theorem cardGet_map_self {l : List String} {g : String → Nat} {x : String}
    (hx : x ∈ l) : cardGet (l.map (fun v => (v, g v))) x = g x := by
  induction l with
  | nil => simp at hx
  | cons a as ih =>
    by_cases hax : a = x
    · subst hax; simp [cardGet, List.find?]
    · have hbeq : (a == x) = false := by simp [hax]
      have hx' : x ∈ as := by
        rcases List.mem_cons.mp hx with h | h
        · exact absurd h.symm hax
        · exact h
      simp only [List.map_cons, cardGet, List.find?, hbeq]
      exact ih hx'

theorem prodCard_congr {vars : List String} {c1 c2 : List (String × Nat)}
    (h : ∀ v ∈ vars, cardGet c1 v = cardGet c2 v) :
    prodCard vars c1 = prodCard vars c2 := by
  induction vars with
  | nil => rfl
  | cons v rest ih =>
    simp only [prodCard]
    rw [h v (List.mem_cons_self v rest), ih (fun u hu => h u (List.mem_cons_of_mem v hu))]

theorem projectIndex_congr {vars : List String} {card : List (String × Nat)}
    {a b : List (String × Int)} (h : ∀ v ∈ vars, asgGet a v = asgGet b v) :
    projectIndex vars card a = projectIndex vars card b := by
  induction vars with
  | nil => rfl
  | cons v rest ih =>
    simp only [projectIndex]
    rw [h v (List.mem_cons_self v rest), ih (fun u hu => h u (List.mem_cons_of_mem v hu))]

theorem projectIndex_congr_card {vars : List String} {c1 c2 : List (String × Nat)}
    {a : List (String × Int)} (h : ∀ v ∈ vars, cardGet c1 v = cardGet c2 v) :
    projectIndex vars c1 a = projectIndex vars c2 a := by
  induction vars with
  | nil => rfl
  | cons v rest ih =>
    simp only [projectIndex]
    have hrest : ∀ u ∈ rest, cardGet c1 u = cardGet c2 u :=
      fun u hu => h u (List.mem_cons_of_mem v hu)
    rw [prodCard_congr hrest, ih hrest]

theorem prodCard_append (l1 l2 : List String) (c : List (String × Nat)) :
    prodCard (l1 ++ l2) c = prodCard l1 c * prodCard l2 c := by
  induction l1 with
  | nil => simp [prodCard]
  | cons v rest ih => simp [prodCard, ih, Nat.mul_assoc]

theorem projectIndex_append (l1 l2 : List String) (c : List (String × Nat))
    (a : List (String × Int)) :
    projectIndex (l1 ++ l2) c a =
      projectIndex l1 c a * (prodCard l2 c : Int) + projectIndex l2 c a := by
  induction l1 with
  | nil => simp [projectIndex]
  | cons v rest ih =>
    have hl : projectIndex ((v :: rest) ++ l2) c a =
        asgGet a v * (prodCard (rest ++ l2) c : Int) +
          projectIndex (rest ++ l2) c a := rfl
    have hr : projectIndex (v :: rest) c a =
        asgGet a v * (prodCard rest c : Int) + projectIndex rest c a := rfl
    rw [hl, hr, ih, prodCard_append]
    push_cast
    ring

theorem projectIndex_bounds {vars : List String} {card : List (String × Nat)}
    {a : List (String × Int)}
    (h : ∀ v ∈ vars, 0 ≤ asgGet a v ∧ asgGet a v < (cardGet card v : Int)) :
    0 ≤ projectIndex vars card a ∧
      projectIndex vars card a < (prodCard vars card : Int) := by
  induction vars with
  | nil => simp [projectIndex, prodCard]
  | cons v rest ih =>
    have hv := h v (List.mem_cons_self v rest)
    have hrest := ih (fun u hu => h u (List.mem_cons_of_mem v hu))
    simp only [projectIndex, prodCard]
    have hN : (0 : Int) ≤ (prodCard rest card : Int) := by positivity
    constructor
    · have h1 : 0 ≤ asgGet a v * (prodCard rest card : Int) :=
        mul_nonneg hv.1 hN
      omega
    · have h1 : (asgGet a v + 1) * (prodCard rest card : Int) ≤
          (cardGet card v : Int) * (prodCard rest card : Int) :=
        mul_le_mul_of_nonneg_right (by omega) hN
      have h2 : (asgGet a v + 1) * (prodCard rest card : Int) =
          asgGet a v * (prodCard rest card : Int) + (prodCard rest card : Int) := by ring
      have h3 : ((cardGet card v * prodCard rest card : Nat) : Int) =
          (cardGet card v : Int) * (prodCard rest card : Int) := by push_cast; ring
      omega

theorem goSum_eq_sum (l : List ℚ) : goSum l = l.sum := by
  rw [goSum, List.sum_eq_foldl]

theorem goSum_set {l : List ℚ} {j : Nat} (hj : j < l.length) (x : ℚ) :
    goSum (l.set j x) = goSum l - (l.get? j).getD 0 + x := by
  rw [goSum_eq_sum, goSum_eq_sum]
  induction l generalizing j with
  | nil => simp at hj
  | cons a as ih =>
    cases j with
    | zero => simp [List.set]; ring
    | succ n =>
      have hn : n < as.length := by simpa using hj
      simp only [List.set, List.sum_cons, List.get?, ih hn]
      ring

theorem goSum_replicate_zero (n : Nat) : goSum (List.replicate n 0) = 0 := by
  rw [goSum_eq_sum]
  simp

theorem sum_getD_range (l : List ℚ) :
    ((List.range l.length).map
      (fun t : Nat => (sliceGet? l (t : Int)).getD 0)).sum = l.sum := by
  induction l with
  | nil => simp
  | cons a as ih =>
    have hlen : (a :: as).length = as.length + 1 := rfl
    rw [hlen, List.range_succ_eq_map]
    simp only [List.map_cons, List.sum_cons, List.map_map]
    have h0 : (sliceGet? (a :: as) ((0 : Nat) : Int)).getD 0 = a := by
      simp [sliceGet?]
    rw [h0]
    have hstep : ∀ t : Nat, (sliceGet? (a :: as) ((t + 1 : Nat) : Int)).getD 0 =
        (sliceGet? as ((t : Nat) : Int)).getD 0 := by
      intro t
      have hpos : (0 : Int) ≤ (t : Int) + 1 := by positivity
      simp [sliceGet?, hpos]
    have hmap : (List.range as.length).map
        ((fun t : Nat => (sliceGet? (a :: as) (t : Int)).getD 0) ∘ Nat.succ) =
        (List.range as.length).map
          (fun t : Nat => (sliceGet? as (t : Int)).getD 0) :=
      List.map_congr_left (fun t _ => hstep t)
    rw [hmap, ih]

theorem sum_range_mul_split (g : Nat → ℚ) (m n : Nat) :
    ((List.range (m * n)).map g).sum =
      ((List.range m).map (fun i => ((List.range n).map (fun t => g (i * n + t))).sum)).sum := by
  induction m with
  | zero => simp
  | succ m ih =>
    have hmn : (m + 1) * n = m * n + n := by ring
    rw [hmn, List.range_add, List.map_append, List.sum_append, ih,
      List.range_succ, List.map_append, List.sum_append]
    simp only [List.map_map, List.map_cons, List.map_nil, List.sum_cons, List.sum_nil,
      add_zero]
    congr 1

end factors

namespace factors

/-- The exact sum of `f`'s entries over all completions of `asg` on the
given variable suffix, mirroring the enumeration order of
`marginalizeHelper`. -/
def sumOver (f : DiscreteFactor) : List String → List (String × Int) → ℚ
  | [], asg => (sliceGet? f.Values (projectIndex f.Variables f.Cardinality asg)).getD 0
  | v :: rest, asg =>
      ((List.range (cardGet f.Cardinality v)).map
        (fun (i : Nat) => sumOver f rest (asgSet asg v (i : Int)))).sum

theorem nodup_split {vars done rest : List String} {v : String}
    (hnodup : vars.Nodup) (hsplit : vars = done ++ v :: rest) :
    v ∉ done ∧ v ∉ rest := by
  rw [hsplit] at hnodup
  rw [List.nodup_append] at hnodup
  obtain ⟨-, h2, hdisj⟩ := hnodup
  constructor
  · intro hv
    exact hdisj hv (List.mem_cons_self v rest)
  · exact (List.nodup_cons.mp h2).1

theorem marginalizeHelper_spec (f : DiscreteFactor) (newVars : List String)
    (newCard : List (String × Nat))
    (hlen : f.Values.length = prodCard f.Variables f.Cardinality)
    (hnodup : f.Variables.Nodup)
    (hsub : ∀ v ∈ newVars, v ∈ f.Variables)
    (hcard : ∀ v ∈ newVars, cardGet newCard v = cardGet f.Cardinality v) :
    ∀ (rest pre : List String) (asg : List (String × Int)) (result : List ℚ),
      f.Variables = pre ++ rest →
      (∀ v ∈ pre, 0 ≤ asgGet asg v ∧ asgGet asg v < (cardGet f.Cardinality v : Int)) →
      result.length = prodCard newVars newCard →
      ∃ result', marginalizeHelper f newVars newCard rest asg result = some result' ∧
        result'.length = result.length ∧
        goSum result' = goSum result + sumOver f rest asg := by
  intro rest
  induction rest with
  | nil =>
    intro pre asg result hsplit hpre hres
    have hpreAll : pre = f.Variables := by simpa using hsplit.symm
    rw [hpreAll] at hpre
    have holdB := projectIndex_bounds hpre
    have holdNat : (projectIndex f.Variables f.Cardinality asg).toNat <
        f.Values.length := by
      rw [hlen]; omega
    have hget1 : sliceGet? f.Values (projectIndex f.Variables f.Cardinality asg) =
        some (f.Values.get ⟨(projectIndex f.Variables f.Cardinality asg).toNat, holdNat⟩) := by
      rw [sliceGet?, if_pos holdB.1]
      exact List.get?_eq_get holdNat
    have hnewB : 0 ≤ projectIndex newVars newCard asg ∧
        projectIndex newVars newCard asg < (prodCard newVars newCard : Int) := by
      apply projectIndex_bounds
      intro v hv
      rw [hcard v hv]
      exact hpre v (hsub v hv)
    have hnewNat : (projectIndex newVars newCard asg).toNat < result.length := by
      rw [hres]; omega
    have hget2 : sliceGet? result (projectIndex newVars newCard asg) =
        some (result.get ⟨(projectIndex newVars newCard asg).toNat, hnewNat⟩) := by
      rw [sliceGet?, if_pos hnewB.1]
      exact List.get?_eq_get hnewNat
    have hset : sliceSet? result (projectIndex newVars newCard asg)
        (result.get ⟨(projectIndex newVars newCard asg).toNat, hnewNat⟩ +
          f.Values.get ⟨(projectIndex f.Variables f.Cardinality asg).toNat, holdNat⟩) =
        some (result.set (projectIndex newVars newCard asg).toNat
          (result.get ⟨(projectIndex newVars newCard asg).toNat, hnewNat⟩ +
            f.Values.get ⟨(projectIndex f.Variables f.Cardinality asg).toNat, holdNat⟩)) := by
      rw [sliceSet?, if_pos ⟨hnewB.1, hnewNat⟩]
    refine ⟨result.set (projectIndex newVars newCard asg).toNat
        (result.get ⟨(projectIndex newVars newCard asg).toNat, hnewNat⟩ +
          f.Values.get ⟨(projectIndex f.Variables f.Cardinality asg).toNat, holdNat⟩),
      ?_, ?_, ?_⟩
    · show (do
        let oldV ← sliceGet? f.Values (projectIndex f.Variables f.Cardinality asg)
        let cur ← sliceGet? result (projectIndex newVars newCard asg)
        sliceSet? result (projectIndex newVars newCard asg) (cur + oldV)) = _
      rw [hget1, hget2]
      simp only [Option.bind_eq_bind, Option.some_bind]
      exact hset
    · simp
    · rw [goSum_set hnewNat]
      have hcur : (result.get? (projectIndex newVars newCard asg).toNat).getD 0 =
          result.get ⟨(projectIndex newVars newCard asg).toNat, hnewNat⟩ := by
        rw [List.get?_eq_get hnewNat]; rfl
      rw [hcur, sumOver]
      rw [hget1]
      simp only [Option.getD_some]
      ring
  | cons v rest' ih =>
    intro pre asg result hsplit hpre hres
    obtain ⟨hvpre, hvrest⟩ := nodup_split hnodup hsplit
    have hsplit' : f.Variables = (pre ++ [v]) ++ rest' := by
      rw [hsplit, List.append_assoc, List.singleton_append]
    have inner : ∀ (is : List Nat) (result0 : List ℚ),
        (∀ i ∈ is, i < cardGet f.Cardinality v) →
        result0.length = prodCard newVars newCard →
        ∃ result', (is.foldlM (fun res (i : Nat) => marginalizeHelper f newVars newCard
            rest' (asgSet asg v (i : Int)) res) result0) = some result' ∧
          result'.length = result0.length ∧
          goSum result' = goSum result0 +
            (is.map (fun (i : Nat) => sumOver f rest' (asgSet asg v (i : Int)))).sum := by
      intro is
      induction is with
      | nil =>
        intro result0 _ _
        exact ⟨result0, rfl, rfl, by simp⟩
      | cons i is' ihI =>
        intro result0 hin hr0len
        have hrange : ∀ u ∈ pre ++ [v],
            0 ≤ asgGet (asgSet asg v (i : Int)) u ∧
              asgGet (asgSet asg v (i : Int)) u < (cardGet f.Cardinality u : Int) := by
          intro u hu
          rcases List.mem_append.mp hu with hu | hu
          · have hne : u ≠ v := fun he => hvpre (he ▸ hu)
            rw [asgGet_set_other hne]
            exact hpre u hu
          · have hu' : u = v := by simpa using hu
            subst hu'
            rw [asgGet_set_self]
            have := hin i (List.mem_cons_self i is')
            constructor
            · positivity
            · exact_mod_cast this
        obtain ⟨r1, hstep, hlen1, hsum1⟩ :=
          ih (pre ++ [v]) (asgSet asg v (i : Int)) result0 hsplit' hrange hr0len
        obtain ⟨r2, hrest, hlen2, hsum2⟩ := ihI r1
          (fun j hj => hin j (List.mem_cons_of_mem i hj)) (hlen1.trans hr0len)
        refine ⟨r2, ?_, hlen2.trans hlen1, ?_⟩
        · rw [List.foldlM_cons, hstep]
          simpa using hrest
        · rw [hsum2, hsum1, List.map_cons, List.sum_cons]
          ring
    obtain ⟨result', hrun, hlen', hsum'⟩ := inner (List.range (cardGet f.Cardinality v))
      result (fun i hi => List.mem_range.mp hi) hres
    exact ⟨result', hrun, hlen', by rw [hsum', sumOver]⟩

theorem sumOver_block (f : DiscreteFactor) (hnodup : f.Variables.Nodup) :
    ∀ (rest pre : List String) (asg : List (String × Int)),
      f.Variables = pre ++ rest →
      sumOver f rest asg =
        ((List.range (prodCard rest f.Cardinality)).map
          (fun t : Nat => (sliceGet? f.Values
            (projectIndex pre f.Cardinality asg *
              (prodCard rest f.Cardinality : Int) + (t : Int))).getD 0)).sum := by
  intro rest
  induction rest with
  | nil =>
    intro pre asg hsplit
    have hpreAll : pre = f.Variables := by simpa using hsplit.symm
    subst hpreAll
    simp only [sumOver, prodCard]
    have h1 : List.range 1 = [0] := rfl
    rw [h1]
    simp
  | cons v rest' ih =>
    intro pre asg hsplit
    have hsplit' : f.Variables = (pre ++ [v]) ++ rest' := by
      rw [hsplit, List.append_assoc, List.singleton_append]
    obtain ⟨hvpre, -⟩ := nodup_split hnodup hsplit
    rw [sumOver]
    have hterm : ∀ i ∈ List.range (cardGet f.Cardinality v),
        sumOver f rest' (asgSet asg v (i : Int)) =
          ((List.range (prodCard rest' f.Cardinality)).map
            (fun t : Nat => (sliceGet? f.Values
              ((projectIndex pre f.Cardinality asg * (cardGet f.Cardinality v : Int) +
                  (i : Int)) *
                (prodCard rest' f.Cardinality : Int) + (t : Int))).getD 0)).sum := by
      intro i _
      rw [ih (pre ++ [v]) (asgSet asg v (i : Int)) hsplit']
      have hproj : projectIndex (pre ++ [v]) f.Cardinality (asgSet asg v (i : Int)) =
          projectIndex pre f.Cardinality asg * (cardGet f.Cardinality v : Int) +
            (i : Int) := by
        rw [projectIndex_append]
        have hpd : projectIndex pre f.Cardinality (asgSet asg v (i : Int)) =
            projectIndex pre f.Cardinality asg := by
          apply projectIndex_congr
          intro u hu
          exact asgGet_set_other (fun he => hvpre (he ▸ hu))
        rw [hpd]
        simp [projectIndex, prodCard, asgGet_set_self]
      rw [hproj]
    rw [List.map_congr_left hterm]
    have hsplitSum := sum_range_mul_split
      (fun t : Nat => (sliceGet? f.Values
        (projectIndex pre f.Cardinality asg *
          (prodCard (v :: rest') f.Cardinality : Int) + (t : Int))).getD 0)
      (cardGet f.Cardinality v) (prodCard rest' f.Cardinality)
    have hprodc : prodCard (v :: rest') f.Cardinality =
        cardGet f.Cardinality v * prodCard rest' f.Cardinality := rfl
    rw [hprodc] at hsplitSum
    rw [hprodc, hsplitSum]
    congr 1
    apply List.map_congr_left
    intro i _
    congr 1
    apply List.map_congr_left
    intro t _
    congr 2
    push_cast
    ring

theorem sumOver_all (f : DiscreteFactor) (hnodup : f.Variables.Nodup)
    (hlen : f.Values.length = prodCard f.Variables f.Cardinality) :
    sumOver f f.Variables [] = f.Values.sum := by
  rw [sumOver_block f hnodup f.Variables [] [] rfl]
  have hterm : ∀ t ∈ List.range (prodCard f.Variables f.Cardinality),
      (sliceGet? f.Values
        (projectIndex [] f.Cardinality [] *
          (prodCard f.Variables f.Cardinality : Int) + (t : Int))).getD 0 =
      (sliceGet? f.Values (t : Int)).getD 0 := by
    intro t _
    have h0 : projectIndex [] f.Cardinality [] *
        (prodCard f.Variables f.Cardinality : Int) + (t : Int) = (t : Int) := by
      simp [projectIndex]
    rw [h0]
  rw [List.map_congr_left hterm, ← hlen, sum_getD_range]

end factors

/-- C5: sum preservation under marginalization — for every well-formed
discrete factor and every list of variables to remove, `Marginalize`
succeeds and the sum of the result's values equals the sum of the input's
values (exactly, in the real-valued model); removing every variable gives
the scalar factor whose single value is the total sum. -/
theorem discreteMarginalize_sum_preserved (f : factors.DiscreteFactor)
    (V : List String) (hwf : f.WF) :
    ∃ G, f.Marginalize V = some (.ok G) ∧
      factors.goSum G.Values = factors.goSum f.Values ∧
      ((∀ v ∈ f.Variables, v ∈ V) →
        G.Variables = [] ∧ G.Values = [factors.goSum f.Values]) := by
  obtain ⟨hnodup, -, -, -, hlen⟩ := hwf
  by_cases hempty : (f.Variables.filter (fun v => !(V.contains v))).isEmpty = true
  · refine ⟨⟨[], [], [factors.goSum f.Values]⟩, ?_, ?_, fun _ => ⟨rfl, rfl⟩⟩
    · rw [factors.DiscreteFactor.Marginalize]
      simp only [hempty, if_true]
      simp only [factors.NewDiscreteFactor]
      norm_num [factors.prodCard]
    · rw [factors.goSum_eq_sum, List.sum_singleton]
  · have hemp' : (f.Variables.filter (fun v => !(V.contains v))).isEmpty = false :=
      Bool.eq_false_iff.mpr hempty
    have hsub : ∀ v ∈ f.Variables.filter (fun v => !(V.contains v)), v ∈ f.Variables :=
      fun v hv => (List.mem_filter.mp hv).1
    have hcard : ∀ v ∈ f.Variables.filter (fun v => !(V.contains v)),
        factors.cardGet ((f.Variables.filter (fun v => !(V.contains v))).map
          (fun v => (v, factors.cardGet f.Cardinality v))) v =
          factors.cardGet f.Cardinality v :=
      fun v hv => factors.cardGet_map_self hv
    obtain ⟨result', hrun, hlen', hsum'⟩ :=
      factors.marginalizeHelper_spec f _ _ hlen hnodup hsub hcard f.Variables [] []
        (List.replicate (factors.prodCard
          (f.Variables.filter (fun v => !(V.contains v)))
          ((f.Variables.filter (fun v => !(V.contains v))).map
            (fun v => (v, factors.cardGet f.Cardinality v)))) 0)
        rfl (by simp) (by simp)
    have hlenr : result'.length = factors.prodCard
        (f.Variables.filter (fun v => !(V.contains v)))
        ((f.Variables.filter (fun v => !(V.contains v))).map
          (fun v => (v, factors.cardGet f.Cardinality v))) := by
      rw [hlen']; simp
    refine ⟨⟨f.Variables.filter (fun v => !(V.contains v)),
      (f.Variables.filter (fun v => !(V.contains v))).map
        (fun v => (v, factors.cardGet f.Cardinality v)), result'⟩, ?_, ?_, ?_⟩
    · rw [factors.DiscreteFactor.Marginalize]
      simp only [hemp', Bool.false_eq_true, if_false]
      rw [hrun]
      simp only [factors.NewDiscreteFactor]
      rw [if_neg (fun hq => hq hlenr)]
    · rw [hsum', factors.goSum_replicate_zero,
        factors.sumOver_all f hnodup hlen, zero_add, factors.goSum_eq_sum]
    · intro hall
      exfalso
      have : ∃ v, v ∈ f.Variables.filter (fun v => !(V.contains v)) := by
        cases hl : f.Variables.filter (fun v => !(V.contains v)) with
        | nil => rw [hl] at hemp'; simp at hemp'
        | cons a as => exact ⟨a, hl ▸ List.mem_cons_self a as⟩
      obtain ⟨v, hv⟩ := this
      have h1 := List.mem_filter.mp hv
      have h3 : v ∉ V := by simpa using h1.2
      exact h3 (hall v h1.1)

/-- Witness for C5 at the concrete factor `φ(A,B)`, cardinalities 2/2,
values `[1,2,3,4]`, marginalizing `B` and then everything. -/
theorem discreteMarginalize_sum_preserved_witness :
    (⟨["A", "B"], [("A", 2), ("B", 2)], [1, 2, 3, 4]⟩ :
        factors.DiscreteFactor).WF ∧
    (∃ G, (⟨["A", "B"], [("A", 2), ("B", 2)], [1, 2, 3, 4]⟩ :
        factors.DiscreteFactor).Marginalize ["B"] = some (.ok G) ∧
      factors.goSum G.Values =
        factors.goSum (⟨["A", "B"], [("A", 2), ("B", 2)], [1, 2, 3, 4]⟩ :
          factors.DiscreteFactor).Values) ∧
    (∃ G, (⟨["A", "B"], [("A", 2), ("B", 2)], [1, 2, 3, 4]⟩ :
        factors.DiscreteFactor).Marginalize ["A", "B"] = some (.ok G) ∧
      G.Variables = [] ∧
      G.Values = [factors.goSum (⟨["A", "B"], [("A", 2), ("B", 2)], [1, 2, 3, 4]⟩ :
        factors.DiscreteFactor).Values]) := by
  have hwf : (⟨["A", "B"], [("A", 2), ("B", 2)], [1, 2, 3, 4]⟩ :
      factors.DiscreteFactor).WF := by decide
  refine ⟨hwf, ?_, ?_⟩
  · obtain ⟨G, hok, hsum, -⟩ := discreteMarginalize_sum_preserved _ ["B"] hwf
    exact ⟨G, hok, hsum⟩
  · obtain ⟨G, hok, -, hscalar⟩ := discreteMarginalize_sum_preserved _ ["A", "B"] hwf
    exact ⟨G, hok, hscalar (by decide)⟩

namespace factors

theorem cardHas_exists_get {m : List (String × Nat)} {k : String}
    (h : cardHas m k = true) : ∃ e ∈ m, e.1 = k ∧ e.2 = cardGet m k := by
  rcases Option.isSome_iff_exists.mp h with ⟨e, he⟩
  refine ⟨e, List.mem_of_find?_eq_some he, by simpa using List.find?_some he, ?_⟩
  rw [cardGet, he]
  rfl

theorem cardGet_of_mem_nodup {m : List (String × Nat)} {e : String × Nat}
    (hn : (m.map (·.1)).Nodup) (he : e ∈ m) : cardGet m e.1 = e.2 := by
  induction m with
  | nil => simp at he
  | cons a rest ih =>
    rcases List.mem_cons.mp he with he | he
    · subst he
      simp [cardGet, List.find?]
    · have hne : a.1 ≠ e.1 := by
        intro hh
        have : e.1 ∈ rest.map (·.1) := List.mem_map_of_mem (·.1) he
        rw [← hh] at this
        exact (List.nodup_cons.mp hn).1 this
      have hbeq : (a.1 == e.1) = false := by simp [hne]
      simp only [cardGet, List.find?, hbeq]
      exact ih (List.nodup_cons.mp hn).2 he

theorem cardHas_mem_of_dom {m : List (String × Nat)} {k : String}
    (h : cardHas m k = true) (hdom : ∀ e ∈ m, e.1 ∈ (l : List String)) : k ∈ l := by
  rcases cardHas_exists_get h with ⟨e, he, he1, -⟩
  exact he1 ▸ hdom e he

theorem mergeCard_get {a b : List (String × Nat)} (hb : (b.map (·.1)).Nodup)
    (k : String) :
    cardGet (mergeCard a b) k =
      if cardHas b k = true then cardGet b k else cardGet a k := by
  rw [mergeCard]
  induction b generalizing a with
  | nil => simp [cardHas, List.find?, cardGet]
  | cons e bs ih =>
    simp only [List.foldl_cons]
    rw [ih (List.nodup_cons.mp hb).2]
    by_cases hek : e.1 = k
    · subst hek
      have hbk : cardHas (e :: bs) e.1 = true := by simp [cardHas, List.find?]
      by_cases hbs : cardHas bs e.1 = true
      · have : e.1 ∈ bs.map (·.1) := by
          rcases cardHas_exists_get hbs with ⟨e2, he2, he21, -⟩
          exact he21 ▸ List.mem_map_of_mem (·.1) he2
        exact absurd this (List.nodup_cons.mp hb).1
      · have hbs' : cardHas bs e.1 = false := Bool.eq_false_iff.mpr hbs
        simp only [hbs', Bool.false_eq_true, if_false, hbk, if_true]
        have hget : cardGet (e :: bs) e.1 = e.2 := by simp [cardGet, List.find?]
        rw [hget]
        -- lookup in (cardSet a e.1 e.2)
        clear ih hbk hbs hbs' hb hget
        induction a with
        | nil => simp [cardSet, cardGet, List.find?]
        | cons x xs ihx =>
          by_cases hx : x.1 = e.1
          · simp [cardSet, hx, cardGet, List.find?]
          · have hbeq : (x.1 == e.1) = false := by simp [hx]
            simp only [cardSet, hbeq, Bool.false_eq_true, if_false, cardGet,
              List.find?]
            exact ihx
    · have hbeq : (e.1 == k) = false := by simp [hek]
      have h1 : cardHas (e :: bs) k = cardHas bs k := by
        simp [cardHas, List.find?, hbeq]
      have h2 : cardGet (e :: bs) k = cardGet bs k := by
        simp [cardGet, List.find?, hbeq]
      rw [h1, h2]
      congr 1
      -- lookup in (cardSet a e.1 e.2) at k ≠ e.1
      clear ih h1 h2 hb
      induction a with
      | nil => simp [cardSet, cardGet, List.find?, hbeq]
      | cons x xs ihx =>
        by_cases hx : x.1 = e.1
        · have hxk : (x.1 == k) = false := by rw [hx]; exact hbeq
          simp [cardSet, hx, cardGet, List.find?, hbeq, hxk]
        · have hbeq2 : (x.1 == e.1) = false := by simp [hx]
          simp only [cardSet, hbeq2, Bool.false_eq_true, if_false, cardGet,
            List.find?]
          by_cases hxk : x.1 = k
          · simp [hxk]
          · have hxk' : (x.1 == k) = false := by simp [hxk]
            simp only [hxk']
            exact ihx

end factors

namespace factors

/-- The restriction of an assignment map to a variable tuple (used to
state results for arbitrary assignments over a factor's variables). -/
def asgRestrict (vars : List String) (asg : List (String × Int)) :
    List (String × Int) :=
  vars.map (fun v => (v, asgGet asg v))

theorem asgGet_restrict_mem {vars : List String} {asg : List (String × Int)}
    {x : String} (hx : x ∈ vars) : asgGet (asgRestrict vars asg) x = asgGet asg x := by
  rw [asgRestrict]
  induction vars with
  | nil => simp at hx
  | cons a as ih =>
    by_cases hax : a = x
    · subst hax; simp [asgGet, List.find?]
    · have hbeq : (a == x) = false := by simp [hax]
      have hx' : x ∈ as := by
        rcases List.mem_cons.mp hx with h | h
        · exact absurd h.symm hax
        · exact h
      simp only [List.map_cons, asgGet, List.find?, hbeq]
      exact ih hx'

theorem asgGet_restrict_not_mem {vars : List String} {asg : List (String × Int)}
    {x : String} (hx : x ∉ vars) : asgGet (asgRestrict vars asg) x = 0 := by
  rw [asgRestrict]
  induction vars with
  | nil => simp [asgGet, List.find?]
  | cons a as ih =>
    have hax : a ≠ x := fun he => hx (he ▸ List.mem_cons_self a as)
    have hbeq : (a == x) = false := by simp [hax]
    simp only [List.map_cons, asgGet, List.find?, hbeq]
    exact ih (fun h => hx (List.mem_cons_of_mem a h))

theorem multiplyHelper_spec (A B : DiscreteFactor) (vars : List String)
    (newCard : List (String × Nat))
    (hAlen : A.Values.length = prodCard A.Variables A.Cardinality)
    (hBlen : B.Values.length = prodCard B.Variables B.Cardinality)
    (hAsub : ∀ v ∈ A.Variables, v ∈ vars)
    (hBsub : ∀ v ∈ B.Variables, v ∈ vars)
    (hAcard : ∀ v ∈ A.Variables, cardGet newCard v = cardGet A.Cardinality v)
    (hBcard : ∀ v ∈ B.Variables, cardGet newCard v = cardGet B.Cardinality v)
    (hnodupV : vars.Nodup) :
    ∀ (rest pre : List String) (asg : List (String × Int)) (result : List ℚ),
      vars = pre ++ rest →
      (∀ v ∈ pre, 0 ≤ asgGet asg v ∧ asgGet asg v < (cardGet newCard v : Int)) →
      result.length = prodCard vars newCard →
      ∃ result',
        multiplyHelper A B vars newCard rest asg result = some result' ∧
        result'.length = result.length ∧
        (∀ j : Nat,
          ¬ (projectIndex pre newCard asg * (prodCard rest newCard : Int) ≤ (j : Int) ∧
             (j : Int) < (projectIndex pre newCard asg + 1) *
               (prodCard rest newCard : Int)) →
          result'.get? j = result.get? j) ∧
        (∀ asg2 : List (String × Int),
          (∀ u, u ∉ rest → asgGet asg2 u = asgGet asg u) →
          (∀ u ∈ rest, 0 ≤ asgGet asg2 u ∧ asgGet asg2 u < (cardGet newCard u : Int)) →
          ∃ a b,
            sliceGet? A.Values (projectIndex A.Variables A.Cardinality asg2) = some a ∧
            sliceGet? B.Values (projectIndex B.Variables B.Cardinality asg2) = some b ∧
            result'.get? (projectIndex vars newCard asg2).toNat = some (a * b)) := by
  intro rest
  induction rest with
  | nil =>
    intro pre asg result hsplit hpre hres
    have hpreAll : pre = vars := by simpa using hsplit.symm
    subst hpreAll
    -- in-range of asg over the operands' variables, in their own cardinalities
    have hA : ∀ v ∈ A.Variables,
        0 ≤ asgGet asg v ∧ asgGet asg v < (cardGet A.Cardinality v : Int) := by
      intro v hv
      have := hpre v (hAsub v hv)
      rwa [hAcard v hv] at this
    have hB : ∀ v ∈ B.Variables,
        0 ≤ asgGet asg v ∧ asgGet asg v < (cardGet B.Cardinality v : Int) := by
      intro v hv
      have := hpre v (hBsub v hv)
      rwa [hBcard v hv] at this
    have hABound := projectIndex_bounds hA
    have hBBound := projectIndex_bounds hB
    have hVBound := projectIndex_bounds hpre
    have hANat : (projectIndex A.Variables A.Cardinality asg).toNat <
        A.Values.length := by rw [hAlen]; omega
    have hBNat : (projectIndex B.Variables B.Cardinality asg).toNat <
        B.Values.length := by rw [hBlen]; omega
    have hVNat : (projectIndex pre newCard asg).toNat < result.length := by
      rw [hres]; omega
    have hgetA : sliceGet? A.Values (projectIndex A.Variables A.Cardinality asg) =
        some (A.Values.get ⟨_, hANat⟩) := by
      rw [sliceGet?, if_pos hABound.1]
      exact List.get?_eq_get hANat
    have hgetB : sliceGet? B.Values (projectIndex B.Variables B.Cardinality asg) =
        some (B.Values.get ⟨_, hBNat⟩) := by
      rw [sliceGet?, if_pos hBBound.1]
      exact List.get?_eq_get hBNat
    have hset : sliceSet? result (projectIndex pre newCard asg)
        (A.Values.get ⟨_, hANat⟩ * B.Values.get ⟨_, hBNat⟩) =
        some (result.set (projectIndex pre newCard asg).toNat
          (A.Values.get ⟨_, hANat⟩ * B.Values.get ⟨_, hBNat⟩)) := by
      rw [sliceSet?, if_pos ⟨hVBound.1, hVNat⟩]
    refine ⟨result.set (projectIndex pre newCard asg).toNat
        (A.Values.get ⟨_, hANat⟩ * B.Values.get ⟨_, hBNat⟩), ?_, ?_, ?_, ?_⟩
    · show (do
        let v1 ← sliceGet? A.Values (projectIndex A.Variables A.Cardinality asg)
        let v2 ← sliceGet? B.Values (projectIndex B.Variables B.Cardinality asg)
        sliceSet? result (projectIndex pre newCard asg) (v1 * v2)) = _
      rw [hgetA, hgetB]
      simp only [Option.bind_eq_bind, Option.some_bind]
      exact hset
    · simp
    · intro j hj
      simp only [prodCard, Nat.cast_one, mul_one] at hj
      apply List.get?_set_ne
      omega
    · intro asg2 hagree _
      have hagAll : ∀ u, asgGet asg2 u = asgGet asg u := fun u => hagree u (by simp)
      have hpA : projectIndex A.Variables A.Cardinality asg2 =
          projectIndex A.Variables A.Cardinality asg :=
        projectIndex_congr (fun u _ => hagAll u)
      have hpB : projectIndex B.Variables B.Cardinality asg2 =
          projectIndex B.Variables B.Cardinality asg :=
        projectIndex_congr (fun u _ => hagAll u)
      have hpV : projectIndex pre newCard asg2 = projectIndex pre newCard asg :=
        projectIndex_congr (fun u _ => hagAll u)
      refine ⟨_, _, by rw [hpA]; exact hgetA, by rw [hpB]; exact hgetB, ?_⟩
      rw [hpV]
      exact List.get?_set_eq_of_lt _ hVNat
  | cons v rest' ih =>
    intro pre asg result hsplit hpre hres
    obtain ⟨hvpre, hvrest⟩ := nodup_split hnodupV hsplit
    have hdisj : ∀ u ∈ pre, u ∉ v :: rest' := by
      intro u hu hmem
      have hn := hnodupV
      rw [hsplit, List.nodup_append] at hn
      exact hn.2.2 hu hmem
    have hsplit' : vars = (pre ++ [v]) ++ rest' := by
      rw [hsplit, List.append_assoc, List.singleton_append]
    have hbase := projectIndex_bounds hpre
    -- the head variable's stride-base for completion i
    have hbasei : ∀ i : Nat,
        projectIndex (pre ++ [v]) newCard (asgSet asg v (i : Int)) =
          projectIndex pre newCard asg * (cardGet newCard v : Int) + (i : Int) := by
      intro i
      rw [projectIndex_append]
      have hpd : projectIndex pre newCard (asgSet asg v (i : Int)) =
          projectIndex pre newCard asg :=
        projectIndex_congr (fun u hu =>
          asgGet_set_other (fun he => hvpre (he ▸ hu)))
      rw [hpd]
      simp [projectIndex, prodCard, asgGet_set_self]
    have inner : ∀ (is : List Nat), is.Nodup →
        (∀ i ∈ is, i < cardGet newCard v) →
        ∀ result0 : List ℚ, result0.length = prodCard vars newCard →
        ∃ result', (is.foldlM (fun res (i : Nat) => multiplyHelper A B vars newCard
            rest' (asgSet asg v (i : Int)) res) result0) = some result' ∧
          result'.length = result0.length ∧
          (∀ j : Nat, (∀ i ∈ is,
            ¬ ((projectIndex pre newCard asg * (cardGet newCard v : Int) + (i : Int)) *
                  (prodCard rest' newCard : Int) ≤ (j : Int) ∧
                (j : Int) < (projectIndex pre newCard asg * (cardGet newCard v : Int) +
                  (i : Int) + 1) * (prodCard rest' newCard : Int))) →
            result'.get? j = result0.get? j) ∧
          (∀ asg2 : List (String × Int),
            (∀ u, u ∉ v :: rest' → asgGet asg2 u = asgGet asg u) →
            (∀ u ∈ v :: rest', 0 ≤ asgGet asg2 u ∧
              asgGet asg2 u < (cardGet newCard u : Int)) →
            (asgGet asg2 v).toNat ∈ is →
            ∃ a b,
              sliceGet? A.Values (projectIndex A.Variables A.Cardinality asg2) = some a ∧
              sliceGet? B.Values (projectIndex B.Variables B.Cardinality asg2) = some b ∧
              result'.get? (projectIndex vars newCard asg2).toNat = some (a * b)) := by
      intro is
      induction is with
      | nil =>
        intro _ _ result0 _
        exact ⟨result0, rfl, rfl, fun j _ => rfl, fun asg2 _ _ hmem => by simp at hmem⟩
      | cons i is' ihI =>
        intro hnodupIs hlt result0 hr0len
        have hrange : ∀ u ∈ pre ++ [v],
            0 ≤ asgGet (asgSet asg v (i : Int)) u ∧
              asgGet (asgSet asg v (i : Int)) u < (cardGet newCard u : Int) := by
          intro u hu
          rcases List.mem_append.mp hu with hu | hu
          · have hne : u ≠ v := fun he => hvpre (he ▸ hu)
            rw [asgGet_set_other hne]
            exact hpre u hu
          · have hu' : u = v := by simpa using hu
            subst hu'
            rw [asgGet_set_self]
            have := hlt i (List.mem_cons_self i is')
            exact ⟨by positivity, by exact_mod_cast this⟩
        obtain ⟨r1, hrun1, hlen1, hframe1, hcontent1⟩ :=
          ih (pre ++ [v]) (asgSet asg v (i : Int)) result0 hsplit' hrange hr0len
        obtain ⟨r2, hrun2, hlen2, hframe2, hcontent2⟩ := ihI
          (List.nodup_cons.mp hnodupIs).2
          (fun j hj => hlt j (List.mem_cons_of_mem i hj)) r1 (hlen1.trans hr0len)
        have hinotin : i ∉ is' := (List.nodup_cons.mp hnodupIs).1
        refine ⟨r2, ?_, hlen2.trans hlen1, ?_, ?_⟩
        · rw [List.foldlM_cons, hrun1]
          simpa using hrun2
        · intro j hj
          rw [hframe2 j (fun i' hi' => hj i' (List.mem_cons_of_mem i hi'))]
          have := hj i (List.mem_cons_self i is')
          rw [hframe1 j]
          rw [hbasei i]
          exact this
        · intro asg2 hagree hinR hmem
          rcases List.mem_cons.mp hmem with hmem | hmem
          · -- this completion was written by the head iteration, and survives
            have hvval : asgGet asg2 v = (i : Int) := by
              have h0 := (hinR v (List.mem_cons_self v rest')).1
              omega
            have hagree1 : ∀ u, u ∉ rest' →
                asgGet asg2 u = asgGet (asgSet asg v (i : Int)) u := by
              intro u hu
              by_cases huv : u = v
              · subst huv
                rw [asgGet_set_self, hvval]
              · rw [asgGet_set_other huv]
                exact hagree u (by simp [huv, hu])
            have hinR1 : ∀ u ∈ rest', 0 ≤ asgGet asg2 u ∧
                asgGet asg2 u < (cardGet newCard u : Int) :=
              fun u hu => hinR u (List.mem_cons_of_mem v hu)
            obtain ⟨a, b, hga, hgb, hr1⟩ := hcontent1 asg2 hagree1 hinR1
            refine ⟨a, b, hga, hgb, ?_⟩
            rw [← hr1]
            -- the position lies in the head iteration's block; later blocks miss it
            have hlow := projectIndex_bounds hinR1
            have hposGe : 0 ≤ projectIndex vars newCard asg2 := by
              have hall : ∀ u ∈ vars, 0 ≤ asgGet asg2 u ∧
                  asgGet asg2 u < (cardGet newCard u : Int) := by
                intro u hu
                rw [hsplit] at hu
                rcases List.mem_append.mp hu with hu | hu
                · have huv : u ∉ v :: rest' := hdisj u hu
                  rw [hagree u huv]
                  exact hpre u hu
                · exact hinR u hu
              exact (projectIndex_bounds hall).1
            have hdisj2 : ∀ u ∈ pre ++ [v], u ∉ rest' := by
              intro u hu hmem'
              have hn := hnodupV
              rw [hsplit', List.nodup_append] at hn
              exact hn.2.2 hu hmem'
            have hdecomp : projectIndex vars newCard asg2 =
                (projectIndex pre newCard asg * (cardGet newCard v : Int) + (i : Int)) *
                  (prodCard rest' newCard : Int) +
                  projectIndex rest' newCard asg2 := by
              rw [hsplit', projectIndex_append]
              have hpp : projectIndex (pre ++ [v]) newCard asg2 =
                  projectIndex (pre ++ [v]) newCard (asgSet asg v (i : Int)) :=
                projectIndex_congr (fun u hu => hagree1 u (hdisj2 u hu))
              rw [hpp, hbasei i]
            apply hframe2
            intro i' hi'
            intro ⟨hlo, hhi⟩
            have hne : (i : Int) ≠ (i' : Int) := by
              have : i ≠ i' := fun he => hinotin (he ▸ hi')
              exact_mod_cast this
            have hcast : ((projectIndex vars newCard asg2).toNat : Int) =
                projectIndex vars newCard asg2 := by omega
            rw [hcast] at hlo hhi
            rw [hdecomp] at hlo hhi
            have hN2nn : (0 : Int) ≤ (prodCard rest' newCard : Int) := by positivity
            have hlow1 : 0 ≤ projectIndex rest' newCard asg2 := hlow.1
            have hlow2 : projectIndex rest' newCard asg2 <
              (prodCard rest' newCard : Int) := hlow.2
            rcases lt_or_gt_of_ne hne with hii | hii
            · -- i < i': position is below the i' block
              have hle : (projectIndex pre newCard asg * (cardGet newCard v : Int) +
                  (i : Int) + 1) * (prodCard rest' newCard : Int) ≤
                  (projectIndex pre newCard asg * (cardGet newCard v : Int) +
                    (i' : Int)) * (prodCard rest' newCard : Int) :=
                mul_le_mul_of_nonneg_right (by omega) hN2nn
              have heq : (projectIndex pre newCard asg * (cardGet newCard v : Int) +
                  (i : Int) + 1) * (prodCard rest' newCard : Int) =
                  (projectIndex pre newCard asg * (cardGet newCard v : Int) +
                    (i : Int)) * (prodCard rest' newCard : Int) +
                    (prodCard rest' newCard : Int) := by ring
              linarith
            · -- i' < i: position is above the i' block
              have hle : (projectIndex pre newCard asg * (cardGet newCard v : Int) +
                  (i' : Int) + 1) * (prodCard rest' newCard : Int) ≤
                  (projectIndex pre newCard asg * (cardGet newCard v : Int) +
                    (i : Int)) * (prodCard rest' newCard : Int) :=
                mul_le_mul_of_nonneg_right (by omega) hN2nn
              linarith
          · exact hcontent2 asg2 hagree hinR hmem
    obtain ⟨result', hrun, hlen', hframe, hcontent⟩ :=
      inner (List.range (cardGet newCard v)) (List.nodup_range _)
        (fun i hi => List.mem_range.mp hi) result hres
    refine ⟨result', hrun, hlen', ?_, ?_⟩
    · intro j hj
      apply hframe
      intro i hi
      intro ⟨hlo, hhi⟩
      apply hj
      have hiC : (i : Int) < (cardGet newCard v : Int) := by
        exact_mod_cast List.mem_range.mp hi
      have hinn : (0 : Int) ≤ (i : Int) := by positivity
      have hprodc : (prodCard (v :: rest') newCard : Int) =
          (cardGet newCard v : Int) * (prodCard rest' newCard : Int) := by
        show ((cardGet newCard v * prodCard rest' newCard : Nat) : Int) = _
        push_cast
        ring
      rw [hprodc]
      have hN2nn : (0 : Int) ≤ (prodCard rest' newCard : Int) := by positivity
      constructor
      · have hiN : 0 ≤ (i : Int) * (prodCard rest' newCard : Int) :=
          mul_nonneg hinn hN2nn
        have heq : (projectIndex pre newCard asg * (cardGet newCard v : Int) +
            (i : Int)) * (prodCard rest' newCard : Int) =
            projectIndex pre newCard asg *
              ((cardGet newCard v : Int) * (prodCard rest' newCard : Int)) +
              (i : Int) * (prodCard rest' newCard : Int) := by ring
        linarith
      · have hstep : ((i : Int) + 1) * (prodCard rest' newCard : Int) ≤
            (cardGet newCard v : Int) * (prodCard rest' newCard : Int) :=
          mul_le_mul_of_nonneg_right (by omega) hN2nn
        have heq : (projectIndex pre newCard asg * (cardGet newCard v : Int) +
            (i : Int) + 1) * (prodCard rest' newCard : Int) =
            projectIndex pre newCard asg *
              ((cardGet newCard v : Int) * (prodCard rest' newCard : Int)) +
              ((i : Int) + 1) * (prodCard rest' newCard : Int) := by ring
        have heq2 : (projectIndex pre newCard asg + 1) *
            ((cardGet newCard v : Int) * (prodCard rest' newCard : Int)) =
            projectIndex pre newCard asg *
              ((cardGet newCard v : Int) * (prodCard rest' newCard : Int)) +
              (cardGet newCard v : Int) * (prodCard rest' newCard : Int) := by ring
        linarith
    · intro asg2 hagree hinR
      apply hcontent asg2 hagree hinR
      have hb := hinR v (List.mem_cons_self v rest')
      rw [List.mem_range]
      omega

end factors

/-- C4: discrete factor multiplication.  With agreeing cardinalities on
shared variables, `Multiply` succeeds; the result's variable tuple is the
lexicographically sorted union; its cardinalities extend both operands';
and at every in-range assignment the result's entry at the assignment's
stride index is the product of the operands' entries at the projected
stride indices.  With a shared variable of differing declared cardinality,
`Multiply` returns the mismatch error. -/
theorem discreteMultiply_stride_product_and_mismatch_error
    (A B : factors.DiscreteFactor) (hA : A.WF) (hB : B.WF) :
    ((∀ v, v ∈ A.Variables → v ∈ B.Variables →
        factors.cardGet A.Cardinality v = factors.cardGet B.Cardinality v) →
      ∃ C, A.Multiply B = some (.ok C) ∧
        (C.Variables.Nodup ∧ List.Sorted strLeRel C.Variables ∧
          (∀ v, v ∈ C.Variables ↔ v ∈ A.Variables ∨ v ∈ B.Variables)) ∧
        (∀ v ∈ A.Variables,
          factors.cardGet C.Cardinality v = factors.cardGet A.Cardinality v) ∧
        (∀ v ∈ B.Variables,
          factors.cardGet C.Cardinality v = factors.cardGet B.Cardinality v) ∧
        (∀ asg : List (String × Int),
          (∀ v ∈ C.Variables, 0 ≤ factors.asgGet asg v ∧
            factors.asgGet asg v < (factors.cardGet C.Cardinality v : Int)) →
          ∃ a b,
            factors.sliceGet? A.Values
              (factors.projectIndex A.Variables A.Cardinality asg) = some a ∧
            factors.sliceGet? B.Values
              (factors.projectIndex B.Variables B.Cardinality asg) = some b ∧
            factors.sliceGet? C.Values
              (factors.projectIndex C.Variables C.Cardinality asg) = some (a * b))) ∧
    ((∃ v, v ∈ A.Variables ∧ v ∈ B.Variables ∧
        factors.cardGet A.Cardinality v ≠ factors.cardGet B.Cardinality v) →
      A.Multiply B = some (.error "cardinality mismatch for variable")) := by
  classical
  obtain ⟨hAnodup, hAcnodup, hAdom, hAhas, hAlen⟩ := hA
  obtain ⟨hBnodup, hBcnodup, hBdom, hBhas, hBlen⟩ := hB
  constructor
  · intro hagree
    have hanyF : B.Cardinality.any (fun e =>
        factors.cardHas A.Cardinality e.1 &&
          !(factors.cardGet A.Cardinality e.1 == e.2)) = false := by
      rw [List.any_eq_false]
      intro e he hcontra
      rw [Bool.and_eq_true] at hcontra
      obtain ⟨hhas, hne⟩ := hcontra
      have he1A : e.1 ∈ A.Variables := by
        rcases factors.cardHas_exists_get hhas with ⟨e2, he2, he21, -⟩
        exact he21 ▸ hAdom e2 he2
      have he1B : e.1 ∈ B.Variables := hBdom e he
      have hBe : factors.cardGet B.Cardinality e.1 = e.2 :=
        factors.cardGet_of_mem_nodup hBcnodup he
      have := hagree e.1 he1A he1B
      rw [hBe] at this
      simp [this] at hne
    have hUmem : ∀ v, v ∈ sortStrings ((A.Variables ++ B.Variables).dedup) ↔
        v ∈ A.Variables ∨ v ∈ B.Variables := by
      intro v
      rw [mem_sortStrings, List.mem_dedup, List.mem_append]
    have hUnodup : (sortStrings ((A.Variables ++ B.Variables).dedup)).Nodup :=
      sortStrings_nodup (List.nodup_dedup _)
    have hAsub : ∀ v ∈ A.Variables,
        v ∈ sortStrings ((A.Variables ++ B.Variables).dedup) :=
      fun v hv => (hUmem v).mpr (Or.inl hv)
    have hBsub : ∀ v ∈ B.Variables,
        v ∈ sortStrings ((A.Variables ++ B.Variables).dedup) :=
      fun v hv => (hUmem v).mpr (Or.inr hv)
    have hBcard : ∀ v ∈ B.Variables,
        factors.cardGet (factors.mergeCard A.Cardinality B.Cardinality) v =
          factors.cardGet B.Cardinality v := by
      intro v hv
      rw [factors.mergeCard_get hBcnodup, if_pos (hBhas v hv)]
    have hAcard : ∀ v ∈ A.Variables,
        factors.cardGet (factors.mergeCard A.Cardinality B.Cardinality) v =
          factors.cardGet A.Cardinality v := by
      intro v hv
      rw [factors.mergeCard_get hBcnodup]
      by_cases hbv : factors.cardHas B.Cardinality v = true
      · rw [if_pos hbv]
        have hvB : v ∈ B.Variables := by
          rcases factors.cardHas_exists_get hbv with ⟨e2, he2, he21, -⟩
          exact he21 ▸ hBdom e2 he2
        exact (hagree v hv hvB).symm
      · rw [if_neg hbv]
    obtain ⟨result', hrun, hlen', hframe, hcontent⟩ :=
      factors.multiplyHelper_spec A B
        (sortStrings ((A.Variables ++ B.Variables).dedup))
        (factors.mergeCard A.Cardinality B.Cardinality)
        hAlen hBlen hAsub hBsub hAcard hBcard hUnodup
        (sortStrings ((A.Variables ++ B.Variables).dedup)) [] []
        (List.replicate (factors.prodCard
          (sortStrings ((A.Variables ++ B.Variables).dedup))
          (factors.mergeCard A.Cardinality B.Cardinality)) 0)
        rfl (by simp) (by simp)
    have hlenr : result'.length = factors.prodCard
        (sortStrings ((A.Variables ++ B.Variables).dedup))
        (factors.mergeCard A.Cardinality B.Cardinality) := by
      rw [hlen']; simp
    refine ⟨⟨sortStrings ((A.Variables ++ B.Variables).dedup),
      factors.mergeCard A.Cardinality B.Cardinality, result'⟩, ?_,
      ⟨hUnodup, sortStrings_sorted _, hUmem⟩, hAcard, hBcard, ?_⟩
    · rw [factors.DiscreteFactor.Multiply]
      simp only [hanyF, Bool.false_eq_true, if_false]
      rw [hrun]
      simp only [factors.NewDiscreteFactor]
      rw [if_neg (fun hq => hq hlenr)]
    · intro asg hasg
      have hag : ∀ u, u ∉ sortStrings ((A.Variables ++ B.Variables).dedup) →
          factors.asgGet (factors.asgRestrict
            (sortStrings ((A.Variables ++ B.Variables).dedup)) asg) u =
          factors.asgGet [] u := by
        intro u hu
        rw [factors.asgGet_restrict_not_mem hu]
        rfl
      have hinR : ∀ u ∈ sortStrings ((A.Variables ++ B.Variables).dedup),
          0 ≤ factors.asgGet (factors.asgRestrict
            (sortStrings ((A.Variables ++ B.Variables).dedup)) asg) u ∧
          factors.asgGet (factors.asgRestrict
            (sortStrings ((A.Variables ++ B.Variables).dedup)) asg) u <
            (factors.cardGet (factors.mergeCard A.Cardinality B.Cardinality) u : Int) := by
        intro u hu
        rw [factors.asgGet_restrict_mem hu]
        exact hasg u hu
      obtain ⟨a, b, hga, hgb, hr⟩ := hcontent
        (factors.asgRestrict (sortStrings ((A.Variables ++ B.Variables).dedup)) asg)
        hag hinR
      have hcongrA : factors.projectIndex A.Variables A.Cardinality
          (factors.asgRestrict (sortStrings ((A.Variables ++ B.Variables).dedup)) asg) =
          factors.projectIndex A.Variables A.Cardinality asg :=
        factors.projectIndex_congr (fun u hu =>
          factors.asgGet_restrict_mem (hAsub u hu))
      have hcongrB : factors.projectIndex B.Variables B.Cardinality
          (factors.asgRestrict (sortStrings ((A.Variables ++ B.Variables).dedup)) asg) =
          factors.projectIndex B.Variables B.Cardinality asg :=
        factors.projectIndex_congr (fun u hu =>
          factors.asgGet_restrict_mem (hBsub u hu))
      have hcongrU : factors.projectIndex
          (sortStrings ((A.Variables ++ B.Variables).dedup))
          (factors.mergeCard A.Cardinality B.Cardinality)
          (factors.asgRestrict (sortStrings ((A.Variables ++ B.Variables).dedup)) asg) =
          factors.projectIndex (sortStrings ((A.Variables ++ B.Variables).dedup))
            (factors.mergeCard A.Cardinality B.Cardinality) asg :=
        factors.projectIndex_congr (fun u hu => factors.asgGet_restrict_mem hu)
      rw [hcongrA] at hga
      rw [hcongrB] at hgb
      rw [hcongrU] at hr
      refine ⟨a, b, hga, hgb, ?_⟩
      have hbounds := factors.projectIndex_bounds hasg
      rw [factors.sliceGet?, if_pos hbounds.1]
      exact hr
  · intro ⟨v, hva, hvb, hdiff⟩
    have hanyT : B.Cardinality.any (fun e =>
        factors.cardHas A.Cardinality e.1 &&
          !(factors.cardGet A.Cardinality e.1 == e.2)) = true := by
      rw [List.any_eq_true]
      obtain ⟨e, he, he1, he2⟩ := factors.cardHas_exists_get (hBhas v hvb)
      refine ⟨e, he, ?_⟩
      rw [Bool.and_eq_true]
      constructor
      · rw [he1]; exact hAhas v hva
      · rw [he1, he2]
        simpa using hdiff
    rw [factors.DiscreteFactor.Multiply]
    simp only [hanyT, if_true]

/-- Witness for C4: concrete single-variable factors with matching and
mismatching cardinalities. -/
theorem discreteMultiply_witness :
    (⟨["A"], [("A", 2)], [3, 7]⟩ : factors.DiscreteFactor).WF ∧
    (⟨["B"], [("B", 2)], [5, 6]⟩ : factors.DiscreteFactor).WF ∧
    (∃ C, (⟨["A"], [("A", 2)], [3, 7]⟩ : factors.DiscreteFactor).Multiply
        (⟨["B"], [("B", 2)], [5, 6]⟩ : factors.DiscreteFactor) = some (.ok C) ∧
      ∃ a b,
        factors.sliceGet? (⟨["A"], [("A", 2)], [3, 7]⟩ :
          factors.DiscreteFactor).Values
          (factors.projectIndex ["A"] [("A", 2)] [("A", 1), ("B", 0)]) = some a ∧
        factors.sliceGet? (⟨["B"], [("B", 2)], [5, 6]⟩ :
          factors.DiscreteFactor).Values
          (factors.projectIndex ["B"] [("B", 2)] [("A", 1), ("B", 0)]) = some b ∧
        factors.sliceGet? C.Values
          (factors.projectIndex C.Variables C.Cardinality [("A", 1), ("B", 0)]) =
          some (a * b)) ∧
    (⟨["A"], [("A", 2)], [3, 7]⟩ : factors.DiscreteFactor).Multiply
        (⟨["A"], [("A", 3)], [1, 2, 3]⟩ : factors.DiscreteFactor) =
      some (.error "cardinality mismatch for variable") := by
  have hwfA : (⟨["A"], [("A", 2)], [3, 7]⟩ : factors.DiscreteFactor).WF := by decide
  have hwfB : (⟨["B"], [("B", 2)], [5, 6]⟩ : factors.DiscreteFactor).WF := by decide
  have hwfA3 : (⟨["A"], [("A", 3)], [1, 2, 3]⟩ : factors.DiscreteFactor).WF := by
    decide
  refine ⟨hwfA, hwfB, ?_, ?_⟩
  · obtain ⟨C, hok, ⟨-, -, hmem⟩, hcA, hcB, hval⟩ :=
      (discreteMultiply_stride_product_and_mismatch_error _ _ hwfA hwfB).1
        (by decide)
    refine ⟨C, hok, ?_⟩
    apply hval
    intro v hv
    rcases (hmem v).mp hv with h | h
    · have hv' : v = "A" := by simpa using h
      subst hv'
      rw [hcA "A" (by decide)]
      decide
    · have hv' : v = "B" := by simpa using h
      subst hv'
      rw [hcB "B" (by decide)]
      decide
  · exact (discreteMultiply_stride_product_and_mismatch_error _ _ hwfA hwfA3).2
      ⟨"A", by decide, by decide, by decide⟩

/-! ## The `estimators` package: conditional chi-square test -/

namespace estimators

/-- The conditioning-set stride index of one sample (the Go loop walks `z`
from its last entry with a growing stride); `none` when a conditioning
variable is missing from the sample, in which case the sample is skipped. -/
def sampleZIdx (card : List (String × Nat)) :
    List String → List (String × Int) → Option Int
  | [], _ => some 0
  | zv :: rest, s =>
      if factors.asgHas s zv then
        (sampleZIdx card rest s).map (fun idx =>
          factors.asgGet s zv * (factors.prodCard rest card : Int) + idx)
      else none

/-- A sample enters the contingency table iff `x`, `y` and all of `z` are
present. -/
def sampleCounted (x y : String) (card : List (String × Nat)) (z : List String)
    (s : List (String × Int)) : Bool :=
  factors.asgHas s x && factors.asgHas s y && (sampleZIdx card z s).isSome

/-- Whether the indices a counted sample would write to lie inside the
`counts` array (otherwise the Go code panics). -/
def sampleInBounds (x y : String) (card : List (String × Nat)) (z : List String)
    (s : List (String × Int)) : Bool :=
  decide (0 ≤ factors.asgGet s x) &&
  decide (factors.asgGet s x < (factors.cardGet card x : Int)) &&
  decide (0 ≤ factors.asgGet s y) &&
  decide (factors.asgGet s y < (factors.cardGet card y : Int)) &&
  (match sampleZIdx card z s with
   | some k => decide (0 ≤ k) && decide (k < (factors.prodCard z card : Int))
   | none => true)

/-- `counts[i][j][k]` of `ChiSquareTest` as a counting function. -/
def countXYZ (data : List (List (String × Int))) (x y : String)
    (card : List (String × Nat)) (z : List String) (i j k : Int) : ℚ :=
  ((data.filter (fun s => sampleCounted x y card z s &&
      (factors.asgGet s x == i) && (factors.asgGet s y == j) &&
      (sampleZIdx card z s == some k))).length : ℚ)

/-- `totalCounts[k]` of `ChiSquareTest`. -/
def totalCount (data : List (List (String × Int))) (x y : String)
    (card : List (String × Nat)) (z : List String) (k : Int) : ℚ :=
  ((data.filter (fun s => sampleCounted x y card z s &&
      (sampleZIdx card z s == some k))).length : ℚ)

/-- `xMarginal[i]` for stratum `k`. -/
def xMarginal (data : List (List (String × Int))) (x y : String)
    (card : List (String × Nat)) (z : List String) (i k : Int) : ℚ :=
  ((List.range (factors.cardGet card y)).map
    (fun (j : Nat) => countXYZ data x y card z i (j : Int) k)).sum

/-- `yMarginal[j]` for stratum `k`. -/
def yMarginal (data : List (List (String × Int))) (x y : String)
    (card : List (String × Nat)) (z : List String) (j k : Int) : ℚ :=
  ((List.range (factors.cardGet card x)).map
    (fun (i : Nat) => countXYZ data x y card z (i : Int) j k)).sum

/-- One stratum's contribution to the chi-square statistic: expected
counts from the marginals, `(O − E)² / E` accumulated over cells with
positive expectation. -/
def stratumContribution (data : List (List (String × Int))) (x y : String)
    (card : List (String × Nat)) (z : List String) (k : Int) : ℚ :=
  ((List.range (factors.cardGet card x)).map (fun (i : Nat) =>
    ((List.range (factors.cardGet card y)).map (fun (j : Nat) =>
      if xMarginal data x y card z (i : Int) k *
          yMarginal data x y card z (j : Int) k /
          totalCount data x y card z k > 0 then
        (countXYZ data x y card z (i : Int) (j : Int) k -
          xMarginal data x y card z (i : Int) k *
            yMarginal data x y card z (j : Int) k /
            totalCount data x y card z k) ^ 2 /
          (xMarginal data x y card z (i : Int) k *
            yMarginal data x y card z (j : Int) k /
            totalCount data x y card z k)
      else 0)).sum)).sum

/-- The chi-square statistic: strata whose total count is below 5 are
skipped. -/
def chiSquareStat (data : List (List (String × Int))) (x y : String)
    (card : List (String × Nat)) (z : List String) : ℚ :=
  ((List.range (factors.prodCard z card)).map (fun (k : Nat) =>
    if totalCount data x y card z (k : Int) < 5 then 0
    else stratumContribution data x y card z (k : Int))).sum

/-- `chiSquarePValue`, parameterized by the regularized lower incomplete
gamma function `regGammaP` (whose Go implementation is transcendental
floating-point code; every theorem below holds for an arbitrary such
function). -/
def chiSquarePValue (regGammaP : ℚ → ℚ → ℚ) (chiSquare df : ℚ) : ℚ :=
  if df ≤ 0 then 1
  else if chiSquare > 1000 then 0
  else if chiSquare < 0.001 then 1
  else
    let p := 1 - regGammaP (df / 2) (chiSquare / 2)
    let p1 := if p > 1 then 1 else p
    if p1 < 0 then 0 else p1

/-- `ChiSquareTest`: contingency counting, the skipped-strata statistic
and the p-value; `none` models the index-out-of-range panic on a counted
sample whose state values lie outside the declared cardinalities. -/
def ChiSquareTest (regGammaP : ℚ → ℚ → ℚ) (data : List (List (String × Int)))
    (x y : String) (z : List String) (card : List (String × Nat)) :
    Option (ℚ × ℚ) :=
  if data.any (fun s => sampleCounted x y card z s &&
      !(sampleInBounds x y card z s)) then none
  else
    some (chiSquareStat data x y card z,
      chiSquarePValue regGammaP (chiSquareStat data x y card z)
        ((((factors.cardGet card x : Int) - 1) * ((factors.cardGet card y : Int) - 1) *
          (factors.prodCard z card : Int) : Int) : ℚ))

end estimators

namespace estimators

theorem countXYZ_drop_other {data : List (List (String × Int))} {x y : String}
    {card : List (String × Nat)} {z : List String} {k k' i j : Int}
    (hkk : k' ≠ k) :
    countXYZ (data.filter (fun s => !(sampleCounted x y card z s &&
      (sampleZIdx card z s == some k)))) x y card z i j k' =
    countXYZ data x y card z i j k' := by
  rw [countXYZ, countXYZ, List.filter_filter]
  congr 2
  apply List.filter_congr
  intro s _
  by_cases hz : sampleZIdx card z s = some k'
  · have h1 : (sampleZIdx card z s == some k') = true := by simp [hz]
    have h2 : (sampleZIdx card z s == some k) = false := by
      rw [hz]
      simp [hkk]
    simp [h1, h2]
  · have h1 : (sampleZIdx card z s == some k') = false := by simp [hz]
    simp [h1]

theorem totalCount_drop_other {data : List (List (String × Int))} {x y : String}
    {card : List (String × Nat)} {z : List String} {k k' : Int} (hkk : k' ≠ k) :
    totalCount (data.filter (fun s => !(sampleCounted x y card z s &&
      (sampleZIdx card z s == some k)))) x y card z k' =
    totalCount data x y card z k' := by
  rw [totalCount, totalCount, List.filter_filter]
  congr 2
  apply List.filter_congr
  intro s _
  by_cases hz : sampleZIdx card z s = some k'
  · have h1 : (sampleZIdx card z s == some k') = true := by simp [hz]
    have h2 : (sampleZIdx card z s == some k) = false := by
      rw [hz]
      simp [hkk]
    simp [h1, h2]
  · have h1 : (sampleZIdx card z s == some k') = false := by simp [hz]
    simp [h1]

theorem totalCount_drop_self {data : List (List (String × Int))} {x y : String}
    {card : List (String × Nat)} {z : List String} {k : Int} :
    totalCount (data.filter (fun s => !(sampleCounted x y card z s &&
      (sampleZIdx card z s == some k)))) x y card z k = 0 := by
  rw [totalCount, List.filter_filter]
  have hfe : data.filter (fun s => (sampleCounted x y card z s &&
      (sampleZIdx card z s == some k)) &&
      !(sampleCounted x y card z s && (sampleZIdx card z s == some k))) =
      data.filter (fun _ => false) := by
    apply List.filter_congr
    intro s _
    cases sampleCounted x y card z s && (sampleZIdx card z s == some k) <;> simp
  rw [hfe]
  simp

theorem stratumContribution_drop_other {data : List (List (String × Int))}
    {x y : String} {card : List (String × Nat)} {z : List String} {k k' : Int}
    (hkk : k' ≠ k) :
    stratumContribution (data.filter (fun s => !(sampleCounted x y card z s &&
      (sampleZIdx card z s == some k)))) x y card z k' =
    stratumContribution data x y card z k' := by
  rw [stratumContribution, stratumContribution]
  apply congrArg
  apply List.map_congr_left
  intro i _
  apply congrArg
  apply List.map_congr_left
  intro j _
  have hxm : ∀ i2 : Int, xMarginal (data.filter (fun s =>
      !(sampleCounted x y card z s && (sampleZIdx card z s == some k))))
      x y card z i2 k' = xMarginal data x y card z i2 k' := by
    intro i2
    rw [xMarginal, xMarginal]
    apply congrArg
    apply List.map_congr_left
    intro j2 _
    exact countXYZ_drop_other hkk
  have hym : ∀ j2 : Int, yMarginal (data.filter (fun s =>
      !(sampleCounted x y card z s && (sampleZIdx card z s == some k))))
      x y card z j2 k' = yMarginal data x y card z j2 k' := by
    intro j2
    rw [yMarginal, yMarginal]
    apply congrArg
    apply List.map_congr_left
    intro i2 _
    exact countXYZ_drop_other hkk
  rw [hxm, hym, totalCount_drop_other hkk, countXYZ_drop_other hkk]

theorem chiSquarePValue_mem_unit (g : ℚ → ℚ → ℚ) (c d : ℚ) :
    0 ≤ chiSquarePValue g c d ∧ chiSquarePValue g c d ≤ 1 := by
  simp only [chiSquarePValue]
  by_cases h1 : d ≤ 0
  · rw [if_pos h1]; norm_num
  rw [if_neg h1]
  by_cases h2 : c > 1000
  · rw [if_pos h2]; norm_num
  rw [if_neg h2]
  by_cases h3 : c < 0.001
  · rw [if_pos h3]; norm_num
  rw [if_neg h3]
  by_cases h4 : 1 - g (d / 2) (c / 2) > 1
  · rw [if_pos h4]
    norm_num
  · rw [if_neg h4]
    by_cases h5 : 1 - g (d / 2) (c / 2) < 0
    · rw [if_pos h5]; norm_num
    · rw [if_neg h5]
      exact ⟨not_lt.mp h5, by linarith [not_lt.mp h4]⟩

end estimators

/-- C9: in `ChiSquareTest`, a stratum whose total count is below 5
contributes nothing (deleting its samples leaves the statistic unchanged);
when every stratum is skipped the returned p-value is 1; and the returned
p-value always lies in `[0, 1]` — all for an arbitrary regularized-gamma
routine `g`. -/
theorem chiSquare_skip_sparse_strata_pvalue_clamped
    (g : ℚ → ℚ → ℚ) (data : List (List (String × Int))) (x y : String)
    (z : List String) (card : List (String × Nat)) :
    (∀ k : Int, estimators.totalCount data x y card z k < 5 →
      estimators.chiSquareStat
        (data.filter (fun s => !(estimators.sampleCounted x y card z s &&
          (estimators.sampleZIdx card z s == some k)))) x y card z =
        estimators.chiSquareStat data x y card z) ∧
    ((∀ k : Nat, k < factors.prodCard z card →
        estimators.totalCount data x y card z (k : Int) < 5) →
      ∀ chi p, estimators.ChiSquareTest g data x y z card = some (chi, p) → p = 1) ∧
    (∀ chi p, estimators.ChiSquareTest g data x y z card = some (chi, p) →
      0 ≤ p ∧ p ≤ 1) := by
  have hsome : ∀ chi p, estimators.ChiSquareTest g data x y z card = some (chi, p) →
      p = estimators.chiSquarePValue g (estimators.chiSquareStat data x y card z)
        ((((factors.cardGet card x : Int) - 1) *
          ((factors.cardGet card y : Int) - 1) *
          (factors.prodCard z card : Int) : Int) : ℚ) := by
    intro chi p hcp
    rw [estimators.ChiSquareTest] at hcp
    by_cases hpanic : data.any (fun s => estimators.sampleCounted x y card z s &&
        !(estimators.sampleInBounds x y card z s)) = true
    · rw [if_pos hpanic] at hcp
      cases hcp
    · rw [if_neg hpanic] at hcp
      have hpair := Option.some_inj.mp hcp
      exact (congrArg Prod.snd hpair).symm
  refine ⟨?_, ?_, ?_⟩
  · intro k hk
    rw [estimators.chiSquareStat, estimators.chiSquareStat]
    apply congrArg
    apply List.map_congr_left
    intro k' _
    by_cases hkk : (k' : Int) = k
    · rw [hkk]
      rw [estimators.totalCount_drop_self]
      rw [if_pos (by norm_num : (0 : ℚ) < 5), if_pos hk]
    · rw [estimators.totalCount_drop_other hkk,
        estimators.stratumContribution_drop_other hkk]
  · intro hall chi p hcp
    have hstat : estimators.chiSquareStat data x y card z = 0 := by
      rw [estimators.chiSquareStat]
      have : ∀ k ∈ List.range (factors.prodCard z card),
          (if estimators.totalCount data x y card z (k : Int) < 5 then 0
           else estimators.stratumContribution data x y card z (k : Int)) = (0 : ℚ) := by
        intro k hkm
        rw [if_pos (hall k (List.mem_range.mp hkm))]
      rw [List.map_congr_left this]
      simp
    rw [hsome chi p hcp, hstat]
    rw [estimators.chiSquarePValue]
    by_cases hdf : ((((factors.cardGet card x : Int) - 1) *
        ((factors.cardGet card y : Int) - 1) *
        (factors.prodCard z card : Int) : Int) : ℚ) ≤ 0
    · rw [if_pos hdf]
    · rw [if_neg hdf, if_neg (by norm_num), if_pos (by norm_num)]
  · intro chi p hcp
    rw [hsome chi p hcp]
    exact estimators.chiSquarePValue_mem_unit g _ _

/-- Witness for C9 at the empty data set over binary `X`, `Y` with no
conditioning set: every stratum is empty, hence skipped, and the p-value
is 1. -/
theorem chiSquare_skip_sparse_strata_witness :
    (estimators.totalCount ([] : List (List (String × Int))) "X" "Y"
      [("X", 2), ("Y", 2)] [] 0 < 5) ∧
    (estimators.chiSquareStat
      (([] : List (List (String × Int))).filter
        (fun s => !(estimators.sampleCounted "X" "Y" [("X", 2), ("Y", 2)] [] s &&
          (estimators.sampleZIdx [("X", 2), ("Y", 2)] [] s == some 0))))
      "X" "Y" [("X", 2), ("Y", 2)] [] =
      estimators.chiSquareStat ([] : List (List (String × Int))) "X" "Y"
        [("X", 2), ("Y", 2)] []) ∧
    (∃ chi p, estimators.ChiSquareTest (fun _ _ => 0)
        ([] : List (List (String × Int))) "X" "Y" [] [("X", 2), ("Y", 2)] =
        some (chi, p) ∧ p = 1 ∧ 0 ≤ p ∧ p ≤ 1) := by
  have htot : ∀ k : Int, estimators.totalCount ([] : List (List (String × Int)))
      "X" "Y" [("X", 2), ("Y", 2)] [] k < 5 := by
    intro k
    rw [estimators.totalCount]
    norm_num
  refine ⟨htot 0, ?_, ?_⟩
  · exact (chiSquare_skip_sparse_strata_pvalue_clamped (fun _ _ => 0) [] "X" "Y"
      [] [("X", 2), ("Y", 2)]).1 0 (htot 0)
  · have hrun : estimators.ChiSquareTest (fun _ _ => 0)
        ([] : List (List (String × Int))) "X" "Y" [] [("X", 2), ("Y", 2)] =
        some (estimators.chiSquareStat [] "X" "Y" [("X", 2), ("Y", 2)] [],
          estimators.chiSquarePValue (fun _ _ => 0)
            (estimators.chiSquareStat [] "X" "Y" [("X", 2), ("Y", 2)] [])
            ((((factors.cardGet [("X", 2), ("Y", 2)] "X" : Int) - 1) *
              ((factors.cardGet [("X", 2), ("Y", 2)] "Y" : Int) - 1) *
              (factors.prodCard [] [("X", 2), ("Y", 2)] : Int) : Int) : ℚ)) := by
      rw [estimators.ChiSquareTest]
      rw [if_neg (by simp)]
    refine ⟨_, _, hrun, ?_, ?_⟩
    · exact (chiSquare_skip_sparse_strata_pvalue_clamped (fun _ _ => 0) [] "X" "Y"
        [] [("X", 2), ("Y", 2)]).2.1 (fun k _ => htot (k : Int)) _ _ hrun
    · exact (chiSquare_skip_sparse_strata_pvalue_clamped (fun _ _ => 0) [] "X" "Y"
        [] [("X", 2), ("Y", 2)]).2.2 _ _ hrun

/-! ## The `models` package: linear-Gaussian parameter fitting -/

namespace graph

/-- `DAG.Parents`: the keys of the node's parent map, sorted. -/
def DAG.Parents (d : DAG) (node : String) : List String :=
  sortStrings (parentsOf d.parents node)

end graph

namespace models

/-- The slice of `BayesianNetwork` that `learnGaussianCPDFromMixed`
reads: the DAG and the variable-type map (type values are the Go
constants `"discrete"` / `"continuous"`). -/
structure BayesianNetwork where
  DAG : graph.DAG
  VariableType : List (String × String)

/-- `IsDiscrete`: present in the type map with the discrete tag. -/
def BayesianNetwork.IsDiscrete (bn : BayesianNetwork) (v : String) : Bool :=
  match bn.VariableType.find? (fun e => e.1 == v) with
  | some e => e.2 == "discrete"
  | none => false

/-- A mixed sample: discrete and continuous value maps. -/
structure Sample where
  Discrete : List (String × Int)
  Continuous : List (String × ℚ)
deriving DecidableEq, Repr

/-- `LinearGaussianCPD` (continuous-parent form; the fields for the
discrete-parent form are not reached by the learning path modelled
here). -/
structure LinearGaussianCPD where
  Variable : String
  Parents : List String
  ParentTypes : List (String × String)
  Intercept : ℚ
  Coefficients : List (String × ℚ)
  Variance : ℚ
deriving DecidableEq, Repr

/-- `NewLinearGaussianCPD` for continuous parents: positive variance
required. -/
def NewLinearGaussianCPD (v : String) (parents : List String) (intercept : ℚ)
    (coefficients : List (String × ℚ)) (variance : ℚ) :
    Except String LinearGaussianCPD :=
  if variance ≤ 0 then .error "variance must be positive"
  else .ok ⟨v, parents, parents.map (fun p => (p, "continuous")),
    intercept, coefficients, variance⟩

/-- Forward elimination with partial pivoting over the augmented matrix
(`p` rows, `p+1` columns); a pivot below `1e-10` is the singular-matrix
error. -/
def elimForward (p : Nat) (aug : List (List ℚ)) : Except String (List (List ℚ)) :=
  (List.range p).foldl (fun acc i =>
    match acc with
    | .error e => .error e
    | .ok m =>
      let maxRow := factors.findPivot m i p
      let m1 := factors.swapRows m i maxRow
      if |factors.matGet m1 i i| < 1e-10 then
        .error "singular matrix in linear regression"
      else
        .ok ((List.range' (i + 1) (p - (i + 1))).foldl (fun m2 k =>
          m2.set k ((List.range (p + 1)).map (fun j =>
            if i ≤ j then
              factors.matGet m2 k j -
                (factors.matGet m2 k i / factors.matGet m2 i i) *
                  factors.matGet m2 i j
            else factors.matGet m2 k j))) m1)) (.ok aug)

/-- Back substitution on the eliminated augmented matrix. -/
def backSub (p : Nat) (aug : List (List ℚ)) : List ℚ :=
  (List.range p).reverse.foldl (fun beta i =>
    beta.set i ((factors.matGet aug i p -
      ((List.range' (i + 1) (p - (i + 1))).map (fun j =>
        factors.matGet aug i j * ((beta.get? j).getD 0))).sum) /
      factors.matGet aug i i)) (List.replicate p 0)

/-- `solveLinearRegression`: normal equations `YᵀY β = Yᵀx` solved by
Gaussian elimination. -/
def solveLinearRegression (Y : List (List ℚ)) (X : List ℚ) :
    Except String (List ℚ) :=
  if Y.length = 0 ∨ Y.length ≠ X.length then .error "invalid input dimensions"
  else
    let n := Y.length
    let p := (Y.headD []).length
    let YtY := (List.range p).map (fun i => (List.range p).map (fun j =>
      ((List.range n).map (fun k =>
        factors.matGet Y k i * factors.matGet Y k j)).sum))
    let YtX := (List.range p).map (fun i =>
      ((List.range n).map (fun k =>
        factors.matGet Y k i * ((X.get? k).getD 0))).sum)
    let augmented := (List.range p).map (fun i =>
      ((YtY.get? i).getD []) ++ [(YtX.get? i).getD 0])
    match elimForward p augmented with
    | .error e => .error e
    | .ok aug => .ok (backSub p aug)

/-- The rows usable for the regression of `v` on `parents`: child value
and every parent value present among the sample's continuous values. -/
def validRows (parents : List String) (v : String) (data : List Sample) :
    List Sample :=
  data.filter (fun s => factors.hasKey s.Continuous v &&
    parents.all (fun pp => factors.hasKey s.Continuous pp))

/-- `learnGaussianCPDFromMixed`: the no-parent branch fits mean/variance;
the all-continuous-parents branch runs least squares after requiring at
least `p+1` usable rows; discrete parents are not implemented. -/
def learnGaussianCPDFromMixed (bn : BayesianNetwork) (v : String)
    (data : List Sample) : Except String LinearGaussianCPD :=
  let parents := sortStrings (bn.DAG.Parents v)
  if parents.isEmpty then
    let vals := data.filterMap (fun s => factors.lookupQ? s.Continuous v)
    if vals.length = 0 then .error "no data for variable"
    else
      let count : ℚ := (vals.length : ℚ)
      let mean := factors.goSum vals / count
      let variance := factors.goSum (vals.map (fun x => x * x)) / count - mean * mean
      NewLinearGaussianCPD v [] mean []
        (if variance < 1e-6 then 1e-6 else variance)
  else if parents.all (fun p => !(bn.IsDiscrete p)) then
    let xVals := (validRows parents v data).map (fun s => factors.lookupQ s.Continuous v)
    let yMatrix := (validRows parents v data).map (fun s =>
      1 :: parents.map (fun pp => factors.lookupQ s.Continuous pp))
    if xVals.length < parents.length + 1 then
      .error "insufficient data for learning Gaussian CPD"
    else
      match solveLinearRegression yMatrix xVals with
      | .error e => .error ("failed to solve linear regression: " ++ e)
      | .ok coeffs =>
        let intercept := (coeffs.get? 0).getD 0
        let parentCoeffs := parents.enum.map (fun ie =>
          (ie.2, (coeffs.get? (ie.1 + 1)).getD 0))
        let sumSqResid := ((List.range xVals.length).map (fun i =>
          (((xVals.get? i).getD 0) - (intercept +
            (parents.enum.map (fun je =>
              factors.lookupQ parentCoeffs je.2 *
                ((((yMatrix.get? i).getD []).get? (je.1 + 1)).getD 0))).sum)) ^ 2)).sum
        let variance := sumSqResid / (xVals.length : ℚ)
        NewLinearGaussianCPD v parents intercept parentCoeffs
          (if variance < 1e-6 then 1e-6 else variance)
  else .error "learning Gaussian CPD with discrete parents not yet fully implemented"

end models

/-- A two-variable network with the single edge `Y → X`, both variables
continuous. -/
def exC3BN : models.BayesianNetwork :=
  ⟨(graph.NewDAG.AddEdge "Y" "X").1, [("X", "continuous"), ("Y", "continuous")]⟩

/-- Two samples observing both `X` and `Y`: exactly `p + 1 = 2` usable
rows for the regression of `X` on its one parent. -/
def exC3Data : List models.Sample :=
  [⟨[], [("X", 0), ("Y", 0)]⟩, ⟨[], [("X", 1), ("Y", 1)]⟩]

/-- Positive-variance clamp: the constructor call made by
`learnGaussianCPDFromMixed` never sees a nonpositive variance. -/
theorem newLinearGaussianCPD_clamped_ok (v : String) (parents : List String)
    (intercept : ℚ) (coeffs : List (String × ℚ)) (q : ℚ) :
    ∃ cpd, models.NewLinearGaussianCPD v parents intercept coeffs
      (if q < 1e-6 then 1e-6 else q) = .ok cpd := by
  have hw : ¬ ((if q < 1e-6 then (1e-6 : ℚ) else q) ≤ 0) := by
    by_cases h : q < 1e-6
    · rw [if_pos h]; norm_num
    · rw [if_neg h]; push_neg at h; intro hle; norm_num at h; linarith
  exact ⟨_, by unfold models.NewLinearGaussianCPD; rw [if_neg hw]⟩

set_option maxHeartbeats 2000000 in
/-- C3 (counterexample): with one continuous parent and exactly
`p + 1 = 2` usable data rows — so `n ≤ p + 1` — the fit succeeds: the
code's insufficient-data guard fires only for `n < p + 1`, not for
`n ≤ p + 1` as claimed. -/
theorem learnGaussian_ok_at_n_eq_p_plus_one :
    (models.validRows (sortStrings (exC3BN.DAG.Parents "X")) "X" exC3Data).length =
      (sortStrings (exC3BN.DAG.Parents "X")).length + 1 ∧
    ∃ cpd, models.learnGaussianCPDFromMixed exC3BN "X" exC3Data = .ok cpd := by
  refine ⟨by decide, ?_⟩
  have hP : sortStrings (exC3BN.DAG.Parents "X") = ["Y"] := by decide
  have hvalid : models.validRows ["Y"] "X" exC3Data = exC3Data := by decide
  have hx : exC3Data.map (fun s => factors.lookupQ s.Continuous "X") = [0, 1] := by
    decide
  have hy : exC3Data.map (fun s =>
      (1 : ℚ) :: (["Y"] : List String).map (fun pp => factors.lookupQ s.Continuous pp)) =
      [[1, 0], [1, 1]] := by decide
  have hsolve : models.solveLinearRegression [[1, 0], [1, 1]] [0, 1] = .ok [0, 1] := by
    norm_num [models.solveLinearRegression, models.elimForward, models.backSub,
      factors.findPivot, factors.swapRows, factors.rowGet, factors.matGet,
      List.range_succ, List.range', List.set, abs_of_nonneg]
  have hempty : (["Y"] : List String).isEmpty = false := by decide
  have hall : (["Y"] : List String).all (fun p => !(exC3BN.IsDiscrete p)) = true := by
    decide
  refine ⟨⟨"X", ["Y"], [("Y", "continuous")], 0, [("Y", 1)], 1e-6⟩, ?_⟩
  simp only [models.learnGaussianCPDFromMixed, hP, hempty, hall, hvalid, hx, hy]
  norm_num [hsolve, models.NewLinearGaussianCPD, List.range_succ, List.enum,
    List.enumFrom, factors.lookupQ, factors.lookupQ?]

/-- C3 (amended): for a variable with `p ≥ 1` parents, all continuous,
the fit returns the insufficient-data error exactly when the number `n`
of data rows containing the child and all parent values satisfies
`n < p + 1` (the spec's `n ≤ p + 1` is off by one: `n = p + 1` can
succeed); with `n ≥ p + 1` it errors precisely when the normal-equation
solve does (singular `YᵀY`), and otherwise returns a CPD. -/
theorem learnGaussian_error_iff_insufficient_rows (bn : models.BayesianNetwork)
    (v : String) (data : List models.Sample)
    (hne : sortStrings (bn.DAG.Parents v) ≠ [])
    (hcont : ∀ p ∈ sortStrings (bn.DAG.Parents v), bn.IsDiscrete p = false) :
    ((models.validRows (sortStrings (bn.DAG.Parents v)) v data).length <
        (sortStrings (bn.DAG.Parents v)).length + 1 →
      models.learnGaussianCPDFromMixed bn v data =
        .error "insufficient data for learning Gaussian CPD") ∧
    (∀ e, ¬ ((models.validRows (sortStrings (bn.DAG.Parents v)) v data).length <
        (sortStrings (bn.DAG.Parents v)).length + 1) →
      models.solveLinearRegression
        ((models.validRows (sortStrings (bn.DAG.Parents v)) v data).map (fun s =>
          1 :: (sortStrings (bn.DAG.Parents v)).map (fun pp =>
            factors.lookupQ s.Continuous pp)))
        ((models.validRows (sortStrings (bn.DAG.Parents v)) v data).map (fun s =>
          factors.lookupQ s.Continuous v)) = .error e →
      models.learnGaussianCPDFromMixed bn v data =
        .error ("failed to solve linear regression: " ++ e)) ∧
    (∀ cs, ¬ ((models.validRows (sortStrings (bn.DAG.Parents v)) v data).length <
        (sortStrings (bn.DAG.Parents v)).length + 1) →
      models.solveLinearRegression
        ((models.validRows (sortStrings (bn.DAG.Parents v)) v data).map (fun s =>
          1 :: (sortStrings (bn.DAG.Parents v)).map (fun pp =>
            factors.lookupQ s.Continuous pp)))
        ((models.validRows (sortStrings (bn.DAG.Parents v)) v data).map (fun s =>
          factors.lookupQ s.Continuous v)) = .ok cs →
      ∃ cpd, models.learnGaussianCPDFromMixed bn v data = .ok cpd) := by
  have hempty : (sortStrings (bn.DAG.Parents v)).isEmpty = false := by
    cases h : (sortStrings (bn.DAG.Parents v)).isEmpty
    · rfl
    · exact absurd (List.isEmpty_iff.mp h) hne
  have hall : (sortStrings (bn.DAG.Parents v)).all
      (fun p => !(bn.IsDiscrete p)) = true := by
    rw [List.all_eq_true]
    intro p hp
    rw [hcont p hp]
    rfl
  have hlen : ∀ (f : models.Sample → ℚ),
      ((models.validRows (sortStrings (bn.DAG.Parents v)) v data).map f).length =
        (models.validRows (sortStrings (bn.DAG.Parents v)) v data).length :=
    fun f => List.length_map _ f
  refine ⟨?_, ?_, ?_⟩
  · intro hlt
    simp only [models.learnGaussianCPDFromMixed, hempty, hall, Bool.false_eq_true,
      if_false, if_true]
    rw [if_pos]
    rw [hlen]
    exact hlt
  · intro e hge hsolve
    simp only [models.learnGaussianCPDFromMixed, hempty, hall, Bool.false_eq_true,
      if_false, if_true]
    rw [if_neg (by rw [hlen]; exact hge), hsolve]
  · intro cs hge hsolve
    simp only [models.learnGaussianCPDFromMixed, hempty, hall, Bool.false_eq_true,
      if_false, if_true]
    rw [if_neg (by rw [hlen]; exact hge), hsolve]
    exact newLinearGaussianCPD_clamped_ok _ _ _ _ _

/-- C3 (witness for the amended theorem): a single usable row with one
parent (`n = 1 < p + 1 = 2`) produces the insufficient-data error. -/
theorem learnGaussian_error_iff_insufficient_rows_witness :
    models.learnGaussianCPDFromMixed exC3BN "X" [⟨[], [("X", 0), ("Y", 0)]⟩] =
      .error "insufficient data for learning Gaussian CPD" :=
  (learnGaussian_error_iff_insufficient_rows exC3BN "X" [⟨[], [("X", 0), ("Y", 0)]⟩]
    (by decide) (by decide)).1 (by decide)

/-! ## Soundness of `TopologicalSort` -/

namespace graph

theorem lookupInt_setInt_self (m : List (String × Int)) (k : String) (x : Int) :
    lookupInt (setInt m k x) k = x := by
  induction m with
  | nil => simp [setInt, lookupInt, List.find?]
  | cons e rest ih =>
    by_cases h : (e.1 == k) = true
    · simp [setInt, h, lookupInt, List.find?]
    · simp only [setInt, h, if_false, Bool.false_eq_true]
      simpa [lookupInt, List.find?_cons, h] using ih

theorem lookupInt_setInt_ne (m : List (String × Int)) (k : String) (x : Int)
    (v : String) (hvk : v ≠ k) :
    lookupInt (setInt m k x) v = lookupInt m v := by
  have hkv : (k == v) = false := beq_eq_false_iff_ne.mpr (fun h => hvk h.symm)
  induction m with
  | nil => simp [setInt, lookupInt, List.find?, hkv]
  | cons e rest ih =>
    by_cases h : (e.1 == k) = true
    · have he : e.1 = k := by simpa using h
      simp [setInt, h, lookupInt, List.find?_cons, hkv, he]
    · simp only [setInt, h, if_false, Bool.false_eq_true]
      by_cases hv : (e.1 == v) = true
      · simp [lookupInt, List.find?_cons, hv]
      · simpa [lookupInt, List.find?_cons, hv] using ih

theorem lookupInt_map_self {nodes : List String} {f : String → Int} {v : String}
    (hv : v ∈ nodes) :
    lookupInt (nodes.map (fun n => (n, f n))) v = f v := by
  induction nodes with
  | nil => cases hv
  | cons a t ih =>
    by_cases hav : (a == v) = true
    · have hae : a = v := by simpa using hav
      subst hae
      simp [lookupInt, List.find?_cons]
    · have hv' : v ∈ t := by
        rcases List.mem_cons.mp hv with h | h
        · exact absurd (by rw [h]; exact beq_self_eq_true _) hav
        · exact h
      simpa [lookupInt, List.find?_cons, hav] using ih hv'

theorem indexOf_append_of_mem {x : String} {l : List String} (t : List String)
    (h : x ∈ l) :
    (l ++ t).indexOf x = l.indexOf x := by
  induction l with
  | nil => cases h
  | cons a l ih =>
    by_cases hax : (a == x) = true
    · simp [List.indexOf, List.findIdx_cons, hax]
    · have hx : x ∈ l := by
        rcases List.mem_cons.mp h with h' | h'
        · exact absurd (by rw [h']; exact beq_self_eq_true _) hax
        · exact h'
      simpa [List.indexOf, List.findIdx_cons, hax] using ih hx

theorem indexOf_append_of_not_mem {x : String} {l : List String} (t : List String)
    (h : x ∉ l) :
    (l ++ t).indexOf x = l.length + t.indexOf x := by
  induction l with
  | nil => simp
  | cons a l ih =>
    simp only [List.mem_cons, not_or] at h
    have hax : (a == x) = false :=
      beq_eq_false_iff_ne.mpr (fun he => h.1 he.symm)
    have := ih h.2
    simp [List.indexOf, List.findIdx_cons, hax] at this ⊢
    omega

theorem mem_childrenOf {edges : List (String × String)} {node x : String} :
    x ∈ childrenOf edges node ↔ (node, x) ∈ edges := by
  constructor
  · intro hx
    rcases List.mem_map.mp hx with ⟨e, he, rfl⟩
    rcases List.mem_filter.mp he with ⟨hee, h1⟩
    obtain ⟨a, b⟩ := e
    have h1' : a = node := by simpa using h1
    subst h1'
    exact hee
  · intro hx
    exact List.mem_map.mpr ⟨(node, x), List.mem_filter.mpr ⟨hx, by simp⟩, rfl⟩

theorem childrenOf_nodup {edges : List (String × String)} (h : edges.Nodup)
    (node : String) :
    (childrenOf edges node).Nodup := by
  apply List.Nodup.map_on ?_ (h.filter _)
  intro e1 h1 e2 h2 he
  obtain ⟨a1, b1⟩ := e1
  obtain ⟨a2, b2⟩ := e2
  have ha1 : a1 = node := by simpa using (List.mem_filter.mp h1).2
  have ha2 : a2 = node := by simpa using (List.mem_filter.mp h2).2
  simp only at he
  simp [ha1, ha2, he]

theorem deg_split (edges : List (String × String)) (result : List String)
    (node v : String) (hnode : node ∉ result) :
    (edges.filter (fun e => e.2 == v && !(decide (e.1 ∈ result)))).length
      = (edges.filter (fun e => e.2 == v && !(decide (e.1 ∈ result ++ [node])))).length
        + (childrenOf edges node).count v := by
  induction edges with
  | nil => rfl
  | cons e t ih =>
    by_cases h2 : e.2 = v
    · by_cases h1r : e.1 ∈ result
      · have h1n : (e.1 == node) = false :=
          beq_eq_false_iff_ne.mpr (fun h => hnode (h ▸ h1r))
        simp [childrenOf, List.filter_cons, h2, h1r, h1n, hnode,
          List.mem_append] at ih ⊢
        omega
      · by_cases h1n : e.1 = node
        · simp [childrenOf, List.filter_cons, h2, h1r, h1n, hnode,
            List.count_cons, List.mem_append] at ih ⊢
          omega
        · simp [childrenOf, List.filter_cons, h2, h1r, h1n, hnode,
            List.mem_append] at ih ⊢
          omega
    · by_cases h1n : e.1 = node
      · have h2' : (e.2 == v) = false := beq_eq_false_iff_ne.mpr h2
        simp [childrenOf, List.filter_cons, h2', h1n, hnode, List.count_cons,
          h2, List.mem_append] at ih ⊢
        omega
      · have h2' : (e.2 == v) = false := beq_eq_false_iff_ne.mpr h2
        simp [childrenOf, List.filter_cons, h2', h1n, hnode,
          List.mem_append] at ih ⊢
        omega

theorem parentsOf_length_eq {edges parents : List (String × String)}
    (hed : edges.Nodup) (hpar : parents.Nodup)
    (hep : ∀ e ∈ edges, (e.2, e.1) ∈ parents)
    (hpe : ∀ e ∈ parents, (e.2, e.1) ∈ edges) (v : String) :
    (parentsOf parents v).length = (edges.filter (fun e => e.2 == v)).length := by
  have h1 : (parentsOf parents v).length =
      (parents.filter (fun e => e.1 == v)).length := by
    simp [parentsOf]
  rw [h1]
  have hperm : ((parents.filter (fun e => e.1 == v)).map Prod.swap).Perm
      (edges.filter (fun e => e.2 == v)) := by
    apply (List.perm_ext_iff_of_nodup ?_ ?_).mpr
    · intro x
      constructor
      · intro hx
        rcases List.mem_map.mp hx with ⟨e, he, rfl⟩
        rcases List.mem_filter.mp he with ⟨hepar, h1'⟩
        refine List.mem_filter.mpr ⟨hpe e hepar, ?_⟩
        simpa using h1'
      · intro hx
        rcases List.mem_filter.mp hx with ⟨hee, h2'⟩
        refine List.mem_map.mpr ⟨Prod.swap x, List.mem_filter.mpr ⟨?_, ?_⟩, ?_⟩
        · exact hep x hee
        · simpa using h2'
        · exact Prod.swap_swap x
    · exact (hpar.filter _).map Prod.swap_injective
    · exact hed.filter _
  simpa using hperm.length_eq

end graph

namespace graph

theorem topoChildFold_spec (ch : List String) (hND : ch.Nodup)
    (inDeg : List (String × Int)) (q : List String) (hq : ∀ x ∈ q, x ∉ ch) :
    (∀ v, lookupInt (ch.foldl topoChildStep (inDeg, q)).1 v =
      lookupInt inDeg v - (ch.count v : Int)) ∧
    (∃ enq, (ch.foldl topoChildStep (inDeg, q)).2 = q ++ enq ∧ enq.Nodup ∧
      (∀ x ∈ enq, x ∈ ch)) ∧
    (∀ x ∈ (ch.foldl topoChildStep (inDeg, q)).2,
      (x ∈ q ∧ lookupInt (ch.foldl topoChildStep (inDeg, q)).1 x = lookupInt inDeg x) ∨
      (x ∈ ch ∧ lookupInt (ch.foldl topoChildStep (inDeg, q)).1 x = 0)) := by
  induction ch generalizing inDeg q with
  | nil =>
    refine ⟨fun v => by simp, ⟨[], by simp, List.nodup_nil, by simp⟩, ?_⟩
    intro x hx
    exact Or.inl ⟨hx, rfl⟩
  | cons c rest ih =>
    have hcr : c ∉ rest := (List.nodup_cons.mp hND).1
    have hrestND : rest.Nodup := (List.nodup_cons.mp hND).2
    simp only [List.foldl_cons, topoChildStep]
    by_cases h0 : lookupInt inDeg c - 1 = 0
    · rw [if_pos h0]
      have hq' : ∀ x ∈ q ++ [c], x ∉ rest := by
        intro x hx
        rcases List.mem_append.mp hx with h | h
        · exact fun hr => hq x h (List.mem_cons.mpr (Or.inr hr))
        · have : x = c := by simpa using h
          exact this ▸ hcr
      obtain ⟨hdeg', ⟨enq, henq, henqND, henqsub⟩, hmem'⟩ :=
        ih hrestND (setInt inDeg c (lookupInt inDeg c - 1)) (q ++ [c]) hq'
      refine ⟨?_, ⟨c :: enq, ?_, ?_, ?_⟩, ?_⟩
      · intro v
        rw [hdeg' v]
        by_cases hvc : v = c
        · subst hvc
          rw [lookupInt_setInt_self, List.count_cons_self,
            List.count_eq_zero.mpr hcr]
          push_cast
          omega
        · rw [lookupInt_setInt_ne _ _ _ _ hvc, List.count_cons_of_ne hvc]
      · rw [henq, List.append_assoc]
        rfl
      · exact List.nodup_cons.mpr ⟨fun hc => hcr (henqsub c hc), henqND⟩
      · intro x hx
        rcases List.mem_cons.mp hx with h | h
        · exact h ▸ List.mem_cons_self c rest
        · exact List.mem_cons.mpr (Or.inr (henqsub x h))
      · intro x hx
        rcases hmem' x hx with ⟨hxq, hval⟩ | ⟨hxr, hval⟩
        · rcases List.mem_append.mp hxq with hq0 | hc0
          · have hxc : x ≠ c := fun h => hq x hq0 (h ▸ List.mem_cons_self c rest)
            exact Or.inl ⟨hq0, by rw [hval, lookupInt_setInt_ne _ _ _ _ hxc]⟩
          · have hxc : x = c := by simpa using hc0
            subst hxc
            exact Or.inr ⟨List.mem_cons_self x rest,
              by rw [hval, lookupInt_setInt_self, h0]⟩
        · exact Or.inr ⟨List.mem_cons.mpr (Or.inr hxr), hval⟩
    · rw [if_neg h0]
      have hq' : ∀ x ∈ q, x ∉ rest :=
        fun x hx hr => hq x hx (List.mem_cons.mpr (Or.inr hr))
      obtain ⟨hdeg', ⟨enq, henq, henqND, henqsub⟩, hmem'⟩ :=
        ih hrestND (setInt inDeg c (lookupInt inDeg c - 1)) q hq'
      refine ⟨?_, ⟨enq, henq, henqND, ?_⟩, ?_⟩
      · intro v
        rw [hdeg' v]
        by_cases hvc : v = c
        · subst hvc
          rw [lookupInt_setInt_self, List.count_cons_self,
            List.count_eq_zero.mpr hcr]
          push_cast
          omega
        · rw [lookupInt_setInt_ne _ _ _ _ hvc, List.count_cons_of_ne hvc]
      · exact fun x hx => List.mem_cons.mpr (Or.inr (henqsub x hx))
      · intro x hx
        rcases hmem' x hx with ⟨hxq, hval⟩ | ⟨hxr, hval⟩
        · have hxc : x ≠ c := fun h => hq x hxq (h ▸ List.mem_cons_self c rest)
          exact Or.inl ⟨hxq, by rw [hval, lookupInt_setInt_ne _ _ _ _ hxc]⟩
        · exact Or.inr ⟨List.mem_cons.mpr (Or.inr hxr), hval⟩

end graph

namespace graph

/-- Loop invariant of Kahn's algorithm as implemented by
`TopologicalSort`: processed nodes and queued nodes are distinct nodes of
the graph, the in-degree map counts the edges whose source is still
unprocessed, queued nodes have in-degree zero, and the result built so
far respects every edge between processed nodes. -/
structure TopoInv (nodes : List String) (edges : List (String × String))
    (inDeg : List (String × Int)) (queue result : List String) : Prop where
  resNodes : ∀ x ∈ result, x ∈ nodes
  queueNodes : ∀ x ∈ queue, x ∈ nodes
  resND : result.Nodup
  queueND : queue.Nodup
  disj : ∀ x ∈ queue, x ∉ result
  deg : ∀ v ∈ nodes, v ∉ result →
    lookupInt inDeg v =
      ((edges.filter (fun e => e.2 == v && !(decide (e.1 ∈ result)))).length : Int)
  queueZero : ∀ x ∈ queue, lookupInt inDeg x = 0
  sortedRes : ∀ e ∈ edges, e.2 ∈ result →
    e.1 ∈ result ∧ result.indexOf e.1 < result.indexOf e.2

theorem topoLoop_sound {nodes : List String} {edges : List (String × String)}
    (hed : edges.Nodup)
    (hmem : ∀ e ∈ edges, e.1 ∈ nodes ∧ e.2 ∈ nodes) (fuel : Nat) :
    ∀ (inDeg : List (String × Int)) (queue result : List String),
    TopoInv nodes edges inDeg queue result →
    (∀ x ∈ topoLoop edges fuel inDeg queue result, x ∈ nodes) ∧
    (topoLoop edges fuel inDeg queue result).Nodup ∧
    (∀ e ∈ edges, e.2 ∈ topoLoop edges fuel inDeg queue result →
      e.1 ∈ topoLoop edges fuel inDeg queue result ∧
      (topoLoop edges fuel inDeg queue result).indexOf e.1 <
        (topoLoop edges fuel inDeg queue result).indexOf e.2) := by
  induction fuel with
  | zero =>
    intro inDeg queue result hInv
    exact ⟨hInv.resNodes, hInv.resND, hInv.sortedRes⟩
  | succ n ih =>
    intro inDeg queue result hInv
    rcases hsq : sortStrings queue with _ | ⟨node, rest⟩
    · simp only [topoLoop, hsq]
      exact ⟨hInv.resNodes, hInv.resND, hInv.sortedRes⟩
    · simp only [topoLoop, hsq]
      have hpermC : (node :: rest).Perm queue := hsq ▸ sortStrings_perm queue
      have hnodeq : node ∈ queue := hpermC.mem_iff.mp (List.mem_cons_self node rest)
      have hsubrest : ∀ x ∈ rest, x ∈ queue :=
        fun x hx => hpermC.mem_iff.mp (List.mem_cons.mpr (Or.inr hx))
      have hndC : (node :: rest).Nodup := hpermC.nodup_iff.mpr hInv.queueND
      have hnodener : node ∉ rest := (List.nodup_cons.mp hndC).1
      have hrestND : rest.Nodup := (List.nodup_cons.mp hndC).2
      have hnoderes : node ∉ result := hInv.disj node hnodeq
      have hnodenodes : node ∈ nodes := hInv.queueNodes node hnodeq
      have hz : lookupInt inDeg node = 0 := hInv.queueZero node hnodeq
      have hfilternil :
          edges.filter (fun e => e.2 == node && !(decide (e.1 ∈ result))) = [] := by
        have hlen0 :
            (edges.filter (fun e => e.2 == node && !(decide (e.1 ∈ result)))).length
              = 0 := by
          have hd := hInv.deg node hnodenodes hnoderes
          rw [hz] at hd
          exact_mod_cast hd.symm
        exact List.length_eq_zero.mp hlen0
      have hparents_in : ∀ e ∈ edges, e.2 = node → e.1 ∈ result := by
        intro e he h2
        by_contra h1
        have hmemf : e ∈ edges.filter
            (fun e => e.2 == node && !(decide (e.1 ∈ result))) :=
          List.mem_filter.mpr ⟨he, by simp [h2, h1]⟩
        rw [hfilternil] at hmemf
        cases hmemf
      have hchdeg : ∀ x ∈ childrenOf edges node, x ∉ result →
          lookupInt inDeg x ≠ 0 := by
        intro x hx hxres hzero
        have hedge : (node, x) ∈ edges := mem_childrenOf.mp hx
        have hxnodes : x ∈ nodes := (hmem _ hedge).2
        have hdx := hInv.deg x hxnodes hxres
        rw [hzero] at hdx
        have hmemf : (node, x) ∈ edges.filter
            (fun e => e.2 == x && !(decide (e.1 ∈ result))) :=
          List.mem_filter.mpr ⟨hedge, by simp [hnoderes]⟩
        have hpos : 0 <
            (edges.filter (fun e => e.2 == x && !(decide (e.1 ∈ result)))).length :=
          List.length_pos.mpr (List.ne_nil_of_mem hmemf)
        have : (edges.filter (fun e => e.2 == x && !(decide (e.1 ∈ result)))).length
            = 0 := by exact_mod_cast hdx.symm
        omega
      have hqch : ∀ x ∈ rest, x ∉ childrenOf edges node := by
        intro x hxr hxc
        exact hchdeg x hxc (hInv.disj x (hsubrest x hxr))
          (hInv.queueZero x (hsubrest x hxr))
      have hnodech : node ∉ childrenOf edges node :=
        fun hc => hchdeg node hc hnoderes hz
      have hchres : ∀ x ∈ childrenOf edges node, x ∉ result := by
        intro x hx hxres
        exact hnoderes (hInv.sortedRes (node, x) (mem_childrenOf.mp hx) hxres).1
      obtain ⟨hdeg', ⟨enq, henq, henqND, henqsub⟩, hmem'⟩ :=
        topoChildFold_spec (childrenOf edges node) (childrenOf_nodup hed node)
          inDeg rest hqch
      apply ih
      constructor
      · -- resNodes
        intro x hx
        rcases List.mem_append.mp hx with h | h
        · exact hInv.resNodes x h
        · have : x = node := by simpa using h
          exact this ▸ hnodenodes
      · -- queueNodes
        intro x hx
        rw [henq] at hx
        rcases List.mem_append.mp hx with h | h
        · exact hInv.queueNodes x (hsubrest x h)
        · exact (hmem _ (mem_childrenOf.mp (henqsub x h))).2
      · -- resND
        refine List.nodup_append.mpr ⟨hInv.resND, List.nodup_singleton node, ?_⟩
        intro a ha hb
        have : a = node := by simpa using hb
        exact hnoderes (this ▸ ha)
      · -- queueND
        rw [henq]
        refine List.nodup_append.mpr ⟨hrestND, henqND, ?_⟩
        intro a ha hb
        exact hqch a ha (henqsub a hb)
      · -- disj
        intro x hx hres
        rw [henq] at hx
        rcases List.mem_append.mp hres with hr | hn
        · rcases List.mem_append.mp hx with h | h
          · exact hInv.disj x (hsubrest x h) hr
          · exact hchres x (henqsub x h) hr
        · have hxn : x = node := by simpa using hn
          rcases List.mem_append.mp hx with h | h
          · exact hnodener (hxn ▸ h)
          · exact hnodech (hxn ▸ henqsub x h)
      · -- deg
        intro v hv hvres
        have hvres' : v ∉ result :=
          fun h => hvres (List.mem_append.mpr (Or.inl h))
        have hvnode : v ≠ node := by
          intro h
          exact hvres (List.mem_append.mpr (Or.inr (by simp [h])))
        rw [hdeg' v, hInv.deg v hv hvres',
          deg_split edges result node v hnoderes]
        push_cast
        omega
      · -- queueZero
        intro x hx
        rcases hmem' x hx with ⟨hxq, hval⟩ | ⟨_, hval⟩
        · rw [hval]
          exact hInv.queueZero x (hsubrest x hxq)
        · exact hval
      · -- sortedRes
        intro e he h2
        rcases List.mem_append.mp h2 with hr | hn
        · obtain ⟨h1, hidx⟩ := hInv.sortedRes e he hr
          exact ⟨List.mem_append.mpr (Or.inl h1), by
            rw [indexOf_append_of_mem _ h1, indexOf_append_of_mem _ hr]
            exact hidx⟩
        · have h2n : e.2 = node := by simpa using hn
          have h1 : e.1 ∈ result := hparents_in e he h2n
          refine ⟨List.mem_append.mpr (Or.inl h1), ?_⟩
          rw [indexOf_append_of_mem _ h1, h2n,
            indexOf_append_of_not_mem _ hnoderes]
          have : result.indexOf e.1 < result.length :=
            List.indexOf_lt_length.mpr h1
          simp
          omega

end graph

/-- C8: whenever `TopologicalSort` returns an ordering without error,
every directed edge `u → v` of the DAG has `u` strictly before `v` in the
returned ordering.  The hypotheses are the well-formedness facts the
`graph` API maintains on every reachable `DAG` value: duplicate-free node
and adjacency lists, edge endpoints drawn from the node set, and the edge
and parent maps recording the same relation. -/
theorem topologicalSort_respects_edges (d : graph.DAG)
    (hnodesND : d.nodes.Nodup) (hedND : d.edges.Nodup) (hparND : d.parents.Nodup)
    (hmem : ∀ e ∈ d.edges, e.1 ∈ d.nodes ∧ e.2 ∈ d.nodes)
    (hep : ∀ e ∈ d.edges, (e.2, e.1) ∈ d.parents)
    (hpe : ∀ e ∈ d.parents, (e.2, e.1) ∈ d.edges)
    (order : List String) (hok : d.TopologicalSort = .ok order)
    (u v : String) (huv : (u, v) ∈ d.edges) :
    order.indexOf u < order.indexOf v := by
  have hInv0 : graph.TopoInv d.nodes d.edges
      (d.nodes.map (fun n => (n, ((graph.parentsOf d.parents n).length : Int))))
      (d.nodes.filter (fun n => graph.lookupInt
        (d.nodes.map (fun n => (n, ((graph.parentsOf d.parents n).length : Int))))
        n == 0))
      [] := by
    constructor
    · exact fun x hx => absurd hx (List.not_mem_nil x)
    · exact fun x hx => (List.mem_filter.mp hx).1
    · exact List.nodup_nil
    · exact hnodesND.filter _
    · exact fun x _ hr => absurd hr (List.not_mem_nil x)
    · intro w hw _
      rw [graph.lookupInt_map_self hw]
      have hfeq : d.edges.filter
          (fun e => e.2 == w && !(decide (e.1 ∈ ([] : List String)))) =
          d.edges.filter (fun e => e.2 == w) := by
        apply List.filter_congr
        intro e _
        simp
      rw [hfeq, graph.parentsOf_length_eq hedND hparND hep hpe w]
    · exact fun x hx => by simpa using (List.mem_filter.mp hx).2
    · exact fun e _ h2 => absurd h2 (List.not_mem_nil _)
  obtain ⟨houtN, houtND, hsorted⟩ :=
    graph.topoLoop_sound hedND hmem (d.nodes.length + d.edges.length + 1) _ _ _ hInv0
  simp only [graph.DAG.TopologicalSort] at hok
  split at hok
  · exact absurd hok (by simp)
  · rename_i hlen
    rw [Except.ok.injEq] at hok
    subst hok
    have hlen' : (graph.topoLoop d.edges (d.nodes.length + d.edges.length + 1)
        (d.nodes.map (fun n => (n, ((graph.parentsOf d.parents n).length : Int))))
        (d.nodes.filter (fun n => graph.lookupInt
          (d.nodes.map (fun n => (n, ((graph.parentsOf d.parents n).length : Int))))
          n == 0))
        []).length = d.nodes.length := not_ne_iff.mp hlen
    obtain ⟨l2, hperm2, hsub2⟩ := List.Nodup.subperm houtND houtN
    have hl2 : l2 = d.nodes :=
      hsub2.eq_of_length (by rw [hperm2.length_eq, hlen'])
    have hpermN := (hl2 ▸ hperm2).symm
    have hvmem := hpermN.mem_iff.mpr (hmem _ huv).2
    exact (hsorted (u, v) huv hvmem).2

/-- C8 (witness): on the DAG with the single edge `A → B`,
`TopologicalSort` returns `["A", "B"]` and the theorem places `A` before
`B`. -/
theorem topologicalSort_respects_edges_witness :
    ((graph.NewDAG.AddEdge "A" "B").1).TopologicalSort = .ok ["A", "B"] ∧
    (["A", "B"] : List String).indexOf "A" < (["A", "B"] : List String).indexOf "B" :=
  ⟨by decide, topologicalSort_respects_edges (graph.NewDAG.AddEdge "A" "B").1
    (by decide) (by decide) (by decide) (by decide) (by decide) (by decide)
    ["A", "B"] (by decide) "A" "B" (by decide)⟩
